import Mathlib

/-!
Verification of the summary post-processing / bullet-ranking pipeline of the
x402-Summariser repository (src/src/agent.ts) and of the lookback validator
(src/src/lookback.ts).

The TypeScript code is shallowly embedded: JavaScript strings are modelled as
`String` (a list of Unicode code points); `jsLength` reproduces the UTF-16
code-unit count used by JS `.length`.  Each regular expression of the source is
hand-translated into an executable character-level scanner with the same
match semantics (word boundaries `\b` use the JS word class `[A-Za-z0-9_]`,
`\s` uses the JS whitespace set, `.` excludes line terminators, case-insensitive
matching folds ASCII case, as all inputs of interest are ASCII-cased).
Every definition keeps the name of the source function it embeds.
-/

set_option maxRecDepth 1000000

namespace XSum

abbrev Chars := List Char

/-- The apostrophe character (U+0027), used in several source regexes. -/
def apoChar : Char := Char.ofNat 39

/-- The backquote character (U+0060), part of the speaker-prefix class. -/
def backqChar : Char := Char.ofNat 96

/-- JS `\s` / `String.prototype.trim` whitespace set: space, tab, LF, VT, FF,
CR, NBSP, Ogham space, the U+2000–U+200A spaces, LS, PS, NNBSP, MMSP,
ideographic space and BOM (code points compared numerically). -/
def isJsWs (c : Char) : Bool :=
  c.toNat = 0x20 || c.toNat = 0x09 || c.toNat = 0x0A || c.toNat = 0x0D ||
  c.toNat = 0x0B || c.toNat = 0x0C || c.toNat = 0xA0 || c.toNat = 0x1680 ||
  (0x2000 ≤ c.toNat && c.toNat ≤ 0x200A) ||
  c.toNat = 0x2028 || c.toNat = 0x2029 || c.toNat = 0x202F || c.toNat = 0x205F ||
  c.toNat = 0x3000 || c.toNat = 0xFEFF

/-- JS regex word class `\w` = `[A-Za-z0-9_]`, the class deciding `\b`. -/
def wordChar (c : Char) : Bool :=
  (0x41 ≤ c.toNat && c.toNat ≤ 0x5A) || (0x61 ≤ c.toNat && c.toNat ≤ 0x7A) ||
  (0x30 ≤ c.toNat && c.toNat ≤ 0x39) || c.toNat = 0x5F

/-- `[A-Z]`. -/
def isAsciiUpper (c : Char) : Bool := 0x41 ≤ c.toNat && c.toNat ≤ 0x5A

/-- `[a-z]`. -/
def isAsciiLower (c : Char) : Bool := 0x61 ≤ c.toNat && c.toNat ≤ 0x7A

def isAsciiLetter (c : Char) : Bool := isAsciiUpper c || isAsciiLower c

/-- `[0-9]`. -/
def isDigitChar (c : Char) : Bool := 0x30 ≤ c.toNat && c.toNat ≤ 0x39

/-- JS regex `.` (without the `s` flag) excludes these line terminators. -/
def isLineTerm (c : Char) : Bool :=
  c.toNat = 0x0A || c.toNat = 0x0D || c.toNat = 0x2028 || c.toNat = 0x2029

/-- The ASCII case-fold of a code point (A–Z mapped to a–z), deciding
case-insensitive matching of `i`-flagged regexes. -/
def ciFold (c : Char) : Nat :=
  if 0x41 ≤ c.toNat ∧ c.toNat ≤ 0x5A then c.toNat + 0x20 else c.toNat

/-- Case-insensitive character comparison (ASCII folding). -/
def charCIEq (a b : Char) : Bool := ciFold a = ciFold b

/-- JS `String.prototype.trim()` on a character list. -/
def jsTrimL (s : Chars) : Chars :=
  ((s.dropWhile isJsWs).reverse.dropWhile isJsWs).reverse

/-- JS `String.prototype.trim()`. -/
def jsTrim (s : String) : String := String.mk (jsTrimL s.data)

/-- JS `.length`: number of UTF-16 code units (astral code points count twice). -/
def jsLength (s : Chars) : Nat :=
  s.foldl (fun n c => n + (if 0x10000 ≤ c.val then 2 else 1)) 0

/-- `sub` is a prefix of `s`, comparing case-insensitively. -/
def prefixCI : Chars → Chars → Bool
  | [], _ => true
  | _ :: _, [] => false
  | a :: as, c :: cs => charCIEq a c && prefixCI as cs

/-- `sub` is a prefix of `s` (case-sensitive). -/
def prefixEq : Chars → Chars → Bool
  | [], _ => true
  | _ :: _, [] => false
  | a :: as, c :: cs => (a = c) && prefixEq as cs

/-- Case-sensitive substring containment (JS `String.prototype.includes`). -/
def containsSub (pat : Chars) : Chars → Bool
  | [] => prefixEq pat []
  | c :: rest => prefixEq pat (c :: rest) || containsSub pat rest

/-- Case-insensitive substring containment (a bare alternative in an `i` regex). -/
def containsCI (pat : Chars) : Chars → Bool
  | [] => prefixCI pat []
  | c :: rest => prefixCI pat (c :: rest) || containsCI pat rest

/-- Does the word-pattern `a` match at the head of `s`, with a `\b` required
after its last character (next char absent or not a word char)?
Comparison is case-insensitive. -/
def matchesHereB : Chars → Chars → Bool
  | [], [] => true
  | [], c :: _ => !wordChar c
  | _ :: _, [] => false
  | a :: as, c :: cs => charCIEq a c && matchesHereB as cs

/-- Scanner for `\b(alt1|alt2|...)\b` (case-insensitive): `bOk` says whether a
word boundary holds just before the current position. -/
def scanBothB (alts : List Chars) : Bool → Chars → Bool
  | _, [] => false
  | bOk, c :: rest =>
    (bOk && alts.any (fun a => matchesHereB a (c :: rest))) ||
      scanBothB alts (!wordChar c) rest

/-- Scanner for an alternative `\bword` (boundary only before). -/
def scanPreB (pat : Chars) : Bool → Chars → Bool
  | _, [] => false
  | bOk, c :: rest =>
    (bOk && prefixCI pat (c :: rest)) || scanPreB pat (!wordChar c) rest

/-- Scanner for an alternative `word\b` (boundary only after). -/
def scanPostB (pat : Chars) : Chars → Bool
  | [] => false
  | c :: rest => matchesHereB pat (c :: rest) || scanPostB pat rest

/-- First index of character `c` in `s` (JS `indexOf` restricted to one char). -/
def firstIdxOf (ch : Char) : Chars → Option Nat
  | [] => none
  | c :: rest =>
    if c = ch then some 0 else (firstIdxOf ch rest).map (· + 1)

end XSum

namespace XSum

/-- `String.prototype.split(/\n+/)` on a character list: pieces between maximal
newline runs, with an empty piece at an end that touches a newline run
(JS semantics).  `skipping` is true while inside a newline run, whose
non-initial newlines emit nothing. -/
def splitNlAux (skipping : Bool) (acc : Chars) : Chars → List Chars
  | [] => [acc.reverse]
  | c :: rest =>
    if c = '\n' then
      if skipping then splitNlAux true [] rest
      else acc.reverse :: splitNlAux true [] rest
    else splitNlAux false (c :: acc) rest

def splitNlRuns (s : Chars) : List Chars := splitNlAux false [] s

/-- `Array.prototype.join("\n")`. -/
def joinNl (l : List Chars) : Chars := (l.intersperse ['\n']).flatten

/-- `Array.prototype.join(" ")`. -/
def joinSpace (l : List Chars) : Chars := (l.intersperse [' ']).flatten

/-- `String.prototype.split(/\s+/).filter(Boolean)`: the maximal
non-whitespace runs of `s`. -/
def splitWsRunsAux (cur : Chars) : Chars → List Chars
  | [] => if cur.isEmpty then [] else [cur.reverse]
  | c :: rest =>
    if isJsWs c then
      (if cur.isEmpty then splitWsRunsAux [] rest
       else cur.reverse :: splitWsRunsAux [] rest)
    else splitWsRunsAux (c :: cur) rest

def splitWsRuns (s : Chars) : List Chars := splitWsRunsAux [] s

/-- `text.split(/\s+/).length` for the trimmed, non-empty strings on which the
source invokes it: the number of maximal non-whitespace runs.  The boolean
argument records whether the previous character belonged to a run. -/
def wordCountAux : Bool → Chars → Nat
  | _, [] => 0
  | inw, c :: rest =>
    if isJsWs c then wordCountAux false rest
    else (if inw then 0 else 1) + wordCountAux true rest

def wordCount (s : Chars) : Nat := wordCountAux false s

/-- `replace(/\s+/g, " ")`: collapse every whitespace run to a single space
(`inWs` is true inside a run, whose non-initial characters emit nothing). -/
def collapseWsAux (inWs : Bool) : Chars → Chars
  | [] => []
  | c :: rest =>
    if isJsWs c then
      if inWs then collapseWsAux true rest else ' ' :: collapseWsAux true rest
    else c :: collapseWsAux false rest

def collapseWs (s : Chars) : Chars := collapseWsAux false s

end XSum

namespace XSum

/-- Alternatives of `/\b(action item|todo|need to|must|should|task|follow up|deadline|due)\b/i`. -/
def actionAlts : List Chars :=
  [("action item").data, ("todo").data, ("need to").data, ("must").data,
   ("should").data, ("task").data, ("follow up").data, ("deadline").data,
   ("due").data]

def hasActionVocab (t : Chars) : Bool := scanBothB actionAlts true t

/-- `/\bplan|progress|status|update|launch|deploy|issue|fix|bug|release\b/i`:
by regex alternation precedence only `plan` carries the leading `\b` and only
`release` carries the trailing `\b`; the others are bare substring matches. -/
def hasStatusVocab (t : Chars) : Bool :=
  scanPreB (("plan").data) true t ||
  containsCI (("progress").data) t || containsCI (("status").data) t ||
  containsCI (("update").data) t || containsCI (("launch").data) t ||
  containsCI (("deploy").data) t || containsCI (("issue").data) t ||
  containsCI (("fix").data) t || containsCI (("bug").data) t ||
  scanPostB (("release").data) t

/-- `/\bconfirm|decided|agreed|resolved|concluded\b/i` (same precedence note). -/
def hasResolutionVocab (t : Chars) : Bool :=
  scanPreB (("confirm").data) true t ||
  containsCI (("decided").data) t || containsCI (("agreed").data) t ||
  containsCI (("resolved").data) t ||
  scanPostB (("concluded").data) t

/-- `/\bquestion|asked|whether|how|when|what\b/i` (same precedence note). -/
def hasQuestionVocab (t : Chars) : Bool :=
  scanPreB (("question").data) true t ||
  containsCI (("asked").data) t || containsCI (("whether").data) t ||
  containsCI (("how").data) t || containsCI (("when").data) t ||
  scanPostB (("what").data) t

def isSmhdw (c : Char) : Bool :=
  c = 's' || c = 'm' || c = 'h' || c = 'd' || c = 'w'

/-- Is the next character (if any) a position where `\b` holds after a word
character? -/
def boundaryHead : Chars → Bool
  | [] => true
  | c :: _ => !wordChar c

/-- After at least one digit has been consumed, can `\d*[smhdw]?\b` complete? -/
def numTail : Chars → Bool
  | [] => true
  | c :: rest =>
    (!wordChar c) || (isSmhdw c && boundaryHead rest) || (isDigitChar c && numTail rest)

/-- `\d+[smhdw]?\b` matches at the head of `s` (boundary before is the caller's
duty). -/
def numHere : Chars → Bool
  | [] => false
  | c :: rest => isDigitChar c && numTail rest

/-- `/\b\d+[smhdw]?\b/` (no `i` flag in the source). -/
def scanBareNumber : Bool → Chars → Bool
  | _, [] => false
  | bOk, c :: rest =>
    (bOk && numHere (c :: rest)) || scanBareNumber (!wordChar c) rest

def hasBareNumber (t : Chars) : Bool := scanBareNumber true t

/-- `\d:\d\d\b` matches at the head. -/
def time4 : Chars → Bool
  | a :: b :: c :: d :: rest =>
    isDigitChar a && b = ':' && isDigitChar c && isDigitChar d && boundaryHead rest
  | _ => false

/-- `\d{1,2}:\d{2}\b` matches at the head (boundary before is the caller's duty). -/
def timeHere : Chars → Bool
  | [] => false
  | c :: rest => time4 (c :: rest) || (isDigitChar c && time4 rest)

/-- `/\b\d{1,2}:\d{2}\b/`. -/
def scanTime : Bool → Chars → Bool
  | _, [] => false
  | bOk, c :: rest => (bOk && timeHere (c :: rest)) || scanTime (!wordChar c) rest

def hasTimePattern (t : Chars) : Bool := scanTime true t

/-- `/[A-Za-z].*[A-Za-z].*[A-Za-z]/`: three ASCII letters with no line
terminator between them, i.e. some terminator-free segment holds ≥ 3 letters.
`k` counts letters seen in the current segment. -/
def letters3Aux : Nat → Chars → Bool
  | k, [] => decide (3 ≤ k)
  | k, c :: rest =>
    if isLineTerm c then decide (3 ≤ k) || letters3Aux 0 rest
    else letters3Aux (if isAsciiLetter c then k + 1 else k) rest

def hasThreeLetters (t : Chars) : Bool := letters3Aux 0 t

/-- Code-point ranges of the Unicode `Emoji` property (per `emoji-data.txt`),
the set matched by `/\p{Emoji}/u`.  Note it includes `#`, `*` and the ASCII
digits. -/
def emojiRanges : List (Nat × Nat) :=
  [(0x23, 0x23), (0x2A, 0x2A), (0x30, 0x39), (0xA9, 0xA9), (0xAE, 0xAE),
   (0x203C, 0x203C), (0x2049, 0x2049), (0x2122, 0x2122), (0x2139, 0x2139),
   (0x2194, 0x2199), (0x21A9, 0x21AA), (0x231A, 0x231B), (0x2328, 0x2328),
   (0x23CF, 0x23CF), (0x23E9, 0x23F3), (0x23F8, 0x23FA), (0x24C2, 0x24C2),
   (0x25AA, 0x25AB), (0x25B6, 0x25B6), (0x25C0, 0x25C0), (0x25FB, 0x25FE),
   (0x2600, 0x2604), (0x260E, 0x260E), (0x2611, 0x2611), (0x2614, 0x2615),
   (0x2618, 0x2618), (0x261D, 0x261D), (0x2620, 0x2620), (0x2622, 0x2623),
   (0x2626, 0x2626), (0x262A, 0x262A), (0x262E, 0x262F), (0x2638, 0x263A),
   (0x2640, 0x2640), (0x2642, 0x2642), (0x2648, 0x2653), (0x265F, 0x2660),
   (0x2663, 0x2663), (0x2665, 0x2666), (0x2668, 0x2668), (0x267B, 0x267B),
   (0x267E, 0x267F), (0x2692, 0x2697), (0x2699, 0x2699), (0x269B, 0x269C),
   (0x26A0, 0x26A1), (0x26A7, 0x26A7), (0x26AA, 0x26AB), (0x26B0, 0x26B1),
   (0x26BD, 0x26BE), (0x26C4, 0x26C5), (0x26C8, 0x26C8), (0x26CE, 0x26CF),
   (0x26D1, 0x26D1), (0x26D3, 0x26D4), (0x26E9, 0x26EA), (0x26F0, 0x26F5),
   (0x26F7, 0x26FA), (0x26FD, 0x26FD), (0x2702, 0x2702), (0x2705, 0x2705),
   (0x2708, 0x270D), (0x270F, 0x270F), (0x2712, 0x2712), (0x2714, 0x2714),
   (0x2716, 0x2716), (0x271D, 0x271D), (0x2721, 0x2721), (0x2728, 0x2728),
   (0x2733, 0x2734), (0x2744, 0x2744), (0x2747, 0x2747), (0x274C, 0x274C),
   (0x274E, 0x274E), (0x2753, 0x2755), (0x2757, 0x2757), (0x2763, 0x2764),
   (0x2795, 0x2797), (0x27A1, 0x27A1), (0x27B0, 0x27B0), (0x27BF, 0x27BF),
   (0x2934, 0x2935), (0x2B05, 0x2B07), (0x2B1B, 0x2B1C), (0x2B50, 0x2B50),
   (0x2B55, 0x2B55), (0x3030, 0x3030), (0x303D, 0x303D), (0x3297, 0x3297),
   (0x3299, 0x3299), (0x1F004, 0x1F004), (0x1F0CF, 0x1F0CF),
   (0x1F170, 0x1F171), (0x1F17E, 0x1F17F), (0x1F18E, 0x1F18E),
   (0x1F191, 0x1F19A), (0x1F1E6, 0x1F1FF), (0x1F201, 0x1F202),
   (0x1F21A, 0x1F21A), (0x1F22F, 0x1F22F), (0x1F232, 0x1F23A),
   (0x1F250, 0x1F251), (0x1F300, 0x1F321), (0x1F324, 0x1F393),
   (0x1F396, 0x1F397), (0x1F399, 0x1F39B), (0x1F39E, 0x1F3F0),
   (0x1F3F3, 0x1F3F5), (0x1F3F7, 0x1F4FD), (0x1F4FF, 0x1F53D),
   (0x1F549, 0x1F54E), (0x1F550, 0x1F567), (0x1F56F, 0x1F570),
   (0x1F573, 0x1F57A), (0x1F587, 0x1F587), (0x1F58A, 0x1F58D),
   (0x1F590, 0x1F590), (0x1F595, 0x1F596), (0x1F5A4, 0x1F5A5),
   (0x1F5A8, 0x1F5A8), (0x1F5B1, 0x1F5B2), (0x1F5BC, 0x1F5BC),
   (0x1F5C2, 0x1F5C4), (0x1F5D1, 0x1F5D3), (0x1F5DC, 0x1F5DE),
   (0x1F5E1, 0x1F5E1), (0x1F5E3, 0x1F5E3), (0x1F5E8, 0x1F5E8),
   (0x1F5EF, 0x1F5EF), (0x1F5F3, 0x1F5F3), (0x1F5FA, 0x1F64F),
   (0x1F680, 0x1F6C5), (0x1F6CB, 0x1F6D2), (0x1F6D5, 0x1F6D7),
   (0x1F6DC, 0x1F6E5), (0x1F6E9, 0x1F6E9), (0x1F6EB, 0x1F6EC),
   (0x1F6F0, 0x1F6F0), (0x1F6F3, 0x1F6FC), (0x1F7E0, 0x1F7EB),
   (0x1F7F0, 0x1F7F0), (0x1F90C, 0x1F93A), (0x1F93C, 0x1F945),
   (0x1F947, 0x1F9FF), (0x1FA70, 0x1FA7C), (0x1FA80, 0x1FA88),
   (0x1FA90, 0x1FABD), (0x1FABF, 0x1FAC5), (0x1FACE, 0x1FADB),
   (0x1FAE0, 0x1FAE8), (0x1FAF0, 0x1FAF8)]

def isEmojiChar (c : Char) : Bool :=
  emojiRanges.any (fun p => p.1 ≤ c.toNat && c.toNat ≤ p.2)

/-- `/^\p{Emoji}+$/u.test(text)`. -/
def isEmojiOnly (t : Chars) : Bool := !t.isEmpty && t.all isEmojiChar

/-- `/^[A-Za-z]+\b/.test(text)`: starts with a letter and the maximal leading
letter run is followed by a non-word character or the end. -/
def startsLetterRunB (t : Chars) : Bool :=
  match t with
  | [] => false
  | c :: _ => isAsciiLetter c && boundaryHead (t.dropWhile isAsciiLetter)

/-- `/\s/.test(text)`. -/
def hasJsWs (t : Chars) : Bool := t.any isJsWs

/-- Alternatives of `/\b(lol|haha|hehe|lmao|rofl|omg)\b/i`. -/
def laughterAlts : List Chars :=
  [("lol").data, ("haha").data, ("hehe").data, ("lmao").data, ("rofl").data,
   ("omg").data]

def hasLaughter (t : Chars) : Bool := scanBothB laughterAlts true t

/-- `bullet.replace(/^•\s*/, "")`. -/
def stripLeadingBullet (s : Chars) : Chars :=
  match s with
  | '•' :: rest => rest.dropWhile isJsWs
  | _ => s

/-- The additive score of the (already stripped and trimmed, non-empty) bullet
text, mirroring `scoreBullet`'s accumulation. -/
def scoreTextVal (t : Chars) : Int :=
  (if jsLength t < 20 then -3 else 0) +
  (if 120 < jsLength t then -1 else 0) +
  (if hasActionVocab t then 4 else 0) +
  (if hasStatusVocab t then 3 else 0) +
  (if hasResolutionVocab t then 3 else 0) +
  (if hasQuestionVocab t then 1 else 0) +
  (if hasBareNumber t || hasTimePattern t then 1 else 0) +
  (if hasThreeLetters t then 1 else 0) +
  (if isEmojiOnly t then -5 else 0) +
  (if startsLetterRunB t && !hasJsWs t && jsLength t ≤ 6 then -4 else 0) +
  (if hasLaughter t then -4 else 0) +
  (if wordCount t ≤ 3 then -2 else 0)

/-- `scoreBullet` (agent.ts:1398). -/
def scoreBullet (bullet : String) : Int :=
  let text := jsTrimL (stripLeadingBullet bullet.data)
  if text.isEmpty then -5 else scoreTextVal text

end XSum

namespace XSum

/-- `ConversationEntry` (agent.ts:43). -/
structure ConversationEntry where
  speaker : String
  content : String
deriving Repr, DecidableEq

/-- `capitalizeFirst` (agent.ts:1949): `charAt(0).toUpperCase() + slice(1)`. -/
def capitalizeFirstL (s : Chars) : Chars :=
  match s with
  | [] => []
  | c :: rest => c.toUpper :: rest

def capitalizeFirst (s : String) : String := String.mk (capitalizeFirstL s.data)

/-- `lowercaseFirst` (agent.ts:1956). -/
def lowercaseFirstL (s : Chars) : Chars :=
  match s with
  | [] => []
  | c :: rest => c.toLower :: rest

def lowercaseFirst (s : String) : String := String.mk (lowercaseFirstL s.data)

/-- `capitalizeWords` (agent.ts:1941): split on whitespace, drop empties,
capitalize each word, join with single spaces. -/
def capitalizeWordsL (s : Chars) : Chars :=
  joinSpace ((splitWsRuns s).map capitalizeFirstL)

def capitalizeWords (s : String) : String := String.mk (capitalizeWordsL s.data)

/-- `ensurePeriod` (agent.ts:1933). -/
def ensurePeriodL (sentence : Chars) : Chars :=
  let trimmed := jsTrimL sentence
  match trimmed.getLast? with
  | none => trimmed
  | some c => if c = '.' || c = '!' || c = '?' then trimmed else trimmed ++ [('.' : Char)]

def ensurePeriod (sentence : String) : String := String.mk (ensurePeriodL sentence.data)

/-- `normalizeName` (agent.ts:1918): lowercase, strip a leading `lord\s+`, trim. -/
def normalizeNameL (name : Chars) : Chars :=
  let low := name.map Char.toLower
  let stripped :=
    if prefixEq (("lord").data) low then
      match low.drop 4 with
      | c :: rest => if isJsWs c then rest.dropWhile isJsWs else low
      | [] => low
    else low
  jsTrimL stripped

def normalizeName (name : String) : String := String.mk (normalizeNameL name.data)

/-- `normalizeForMatch` (agent.ts:1914): lowercase, delete every character that
is not `[a-z0-9\s]`, trim. -/
def normalizeForMatchL (value : Chars) : Chars :=
  jsTrimL ((value.map Char.toLower).filter
    (fun c => isAsciiLower c || isDigitChar c || isJsWs c))

/-- Alternatives of the positive-tone regex
`/(^|\b)(yes|yep|yeah|affirmative|confirmed|done|already|of course|sure)(\b|$)/`. -/
def positiveToneAlts : List Chars :=
  [("yes").data, ("yep").data, ("yeah").data, ("affirmative").data,
   ("confirmed").data, ("done").data, ("already").data, ("of course").data,
   ("sure").data]

/-- Alternatives of the negative-tone regex (the apostrophe forms are built
with `apoChar`). -/
def negativeToneAlts : List Chars :=
  [("no").data, ("nope").data, ("not yet").data,
   ['h', 'a', 'v', 'e', 'n', apoChar, 't'], ("have not").data,
   ['d', 'i', 'd', 'n', apoChar, 't'],
   ("cannot").data, ['c', 'a', 'n', apoChar, 't']]

inductive AnswerTone where
  | positive
  | negative
deriving Repr, DecidableEq

/-- `classifyAnswerTone` (agent.ts:1922).  `(^|\b)w(\b|$)` coincides with
`\bw\b` since string start/end are boundaries before/after word characters. -/
def classifyAnswerTone (content : String) : Option AnswerTone :=
  let text := content.data.map Char.toLower
  if scanBothB positiveToneAlts true text then some AnswerTone.positive
  else if scanBothB negativeToneAlts true text then some AnswerTone.negative
  else none

/-- `isYesNoQuestion` (agent.ts:1869). -/
def isYesNoQuestion (word : String) : Bool :=
  [("have" : String), "has", "had", "did", "do", "does", "is", "are", "was",
   "were", "will", "can", "could", "should", "would"].contains word

/-- `findConversationEntryIndex` (agent.ts:1889): JS `-1` sentinel preserved. -/
def findConversationEntryIndexAux (targetSpeaker normalizedStatement : Chars) :
    Nat → List ConversationEntry → Int
  | _, [] => -1
  | i, e :: rest =>
    if normalizeNameL e.speaker.data = targetSpeaker then
      let normalizedContent := normalizeForMatchL e.content.data
      if !normalizedContent.isEmpty &&
          (containsSub normalizedContent normalizedStatement ||
           containsSub normalizedStatement normalizedContent) then
        (i : Int)
      else findConversationEntryIndexAux targetSpeaker normalizedStatement (i + 1) rest
    else findConversationEntryIndexAux targetSpeaker normalizedStatement (i + 1) rest

def findConversationEntryIndex (entries : List ConversationEntry)
    (speaker statement : String) : Int :=
  findConversationEntryIndexAux (normalizeNameL speaker.data)
    (normalizeForMatchL statement.data) 0 entries

end XSum

namespace XSum

structure QuestionParseResult where
  questionWord : String
  remainder : String
  targetName : Option String
  original : String
deriving Repr, DecidableEq

/-- A character allowed inside the name-word class `[A-Za-z0-9']` (the regex
carries the `i` flag, so `[A-Z]` also matches lowercase letters). -/
def nameWordChar (c : Char) : Bool :=
  isAsciiLetter c || isDigitChar c || c = apoChar

/-- Tail of `[A-Z][A-Za-z0-9']*(\s+[A-Z][A-Za-z0-9']*)*$` after its first
letter: word characters, or a whitespace run followed by a further
letter-led word; must consume the whole string. -/
def nameSeqTailAux : Bool → Chars → Bool
  | inWs, [] => !inWs
  | false, c :: rest =>
    if nameWordChar c then nameSeqTailAux false rest
    else if isJsWs c then nameSeqTailAux true rest
    else false
  | true, c :: rest =>
    if isJsWs c then nameSeqTailAux true rest
    else if isAsciiLetter c then nameSeqTailAux false rest
    else false

def nameSeqTail (s : Chars) : Bool := nameSeqTailAux false s

/-- `[A-Z][A-Za-z0-9']*(\s+[A-Z][A-Za-z0-9']*)*$` matches all of `s`
(`i`-flagged). -/
def nameSeq : Chars → Bool
  | [] => false
  | c :: rest => isAsciiLetter c && nameSeqTail rest

/-- Given the text after a comma, the captured name of
`,\s*(?:lord\s+)?([A-Z][A-Za-z0-9']*(?:\s+[A-Z][A-Za-z0-9']*)*)$/i` if the
whole remainder matches; the greedy optional `lord\s+` is tried first and
given back if the name part then fails. -/
def commaSuffixName (s : Chars) : Option Chars :=
  let r := s.dropWhile isJsWs
  let withLord : Option Chars :=
    if prefixCI (("lord").data) r then
      match r.drop 4 with
      | c :: rest => if isJsWs c then some (rest.dropWhile isJsWs) else none
      | [] => none
    else none
  match withLord with
  | some r2 => if nameSeq r2 then some r2 else if nameSeq r then some r else none
  | none => if nameSeq r then some r else none

/-- Find the earliest comma whose entire suffix matches the addressee pattern;
returns (text before the comma, captured name). -/
def findCommaTargetAux (acc : Chars) : Chars → Option (Chars × Chars)
  | [] => none
  | c :: rest =>
    if c = ',' then
      match commaSuffixName rest with
      | some nm => some (acc.reverse, nm)
      | none => findCommaTargetAux (c :: acc) rest
    else findCommaTargetAux (c :: acc) rest

def findCommaTarget (s : Chars) : Option (Chars × Chars) :=
  findCommaTargetAux [] s

/-- `parseQuestion` (agent.ts:1703). -/
def parseQuestion (question : String) : QuestionParseResult :=
  let trimmed := jsTrimL
    ((question.data.reverse.dropWhile (fun c => c = '?' || c = '？')).reverse)
  let (working0, targetName) :=
    match findCommaTarget trimmed with
    | some (before, nm) => (jsTrimL before, some (String.mk (jsTrimL nm)))
    | none => (trimmed, none)
  match working0 with
  | [] => { questionWord := "", remainder := "", targetName := targetName,
            original := String.mk trimmed }
  | c :: rest =>
    let tok := (c :: rest).takeWhile (fun x => !isJsWs x)
    let questionWord := tok.map Char.toLower
    let remainder := jsTrimL ((c :: rest).drop tok.length)
    { questionWord := String.mk questionWord, remainder := String.mk remainder,
      targetName := targetName, original := String.mk trimmed }

/-- `buildYesNoAnswerStatement` (agent.ts:1824). -/
def buildYesNoAnswerStatement (questionWord remainder : String)
    (tone : AnswerTone) : String :=
  let clause0 := jsTrimL remainder.data
  let clause1 := clause0.dropWhile (fun c => c = ',' || isJsWs c)
  let clause :=
    if prefixCI (("we").data) clause1 &&
        (match clause1.drop 2 with
         | c :: _ => isJsWs c
         | [] => false) then
      let rest := jsTrimL (clause1.drop 3)
      if questionWord = "have" then
        (if tone = AnswerTone.positive then ("we have ").data ++ rest
         else ("we have not ").data ++ rest)
      else if questionWord = "did" then
        (if tone = AnswerTone.positive then ("we ").data ++ rest
         else ("we did not ").data ++ rest)
      else if questionWord = "are" then
        (if tone = AnswerTone.positive then ("we are ").data ++ rest
         else ("we are not ").data ++ rest)
      else
        (if tone = AnswerTone.positive then ("we ").data ++ rest
         else ("we do not ").data ++ rest)
    else
      (if tone = AnswerTone.positive then clause1 else ("not ").data ++ clause1)
  String.mk (lowercaseFirstL clause)

/-- `buildAnswerStatement` (agent.ts:1808). -/
def buildAnswerStatement (parsed : QuestionParseResult) (tone : AnswerTone) :
    String :=
  let remainder := jsTrim parsed.remainder
  if remainder = "" then ""
  else if isYesNoQuestion parsed.questionWord then
    buildYesNoAnswerStatement parsed.questionWord remainder tone
  else lowercaseFirst remainder

/-- `normalizeHowTopic` (agent.ts:1860). -/
def normalizeHowTopic (remainder : String) : String :=
  let topic0 := jsTrimL remainder.data
  let copulas : List Chars := [("is").data, ("are").data, ("was").data, ("were").data]
  let strip1 : Option Chars := copulas.firstM (fun w =>
    if prefixCI w topic0 then
      match topic0.drop w.length with
      | c :: rest => if isJsWs c then some (rest.dropWhile isJsWs) else none
      | [] => none
    else none)
  let topic1 := strip1.getD topic0
  let topic2 :=
    if prefixCI (("the").data) topic1 && boundaryHead (topic1.drop 3) then topic1
    else ("the ").data ++ topic1
  String.mk (jsTrimL topic2)

/-- `buildAskedSentence` (agent.ts:1726). -/
def buildAskedSentence (speaker : String) (parsed : QuestionParseResult) :
    String :=
  let target : Option String := parsed.targetName.map capitalizeWords
  let remainder := jsTrim parsed.remainder
  if remainder = "" then speaker ++ " asked a question."
  else if isYesNoQuestion parsed.questionWord then
    let clause := lowercaseFirst remainder
    let targetClause :=
      match target with
      | some t => t ++ " whether " ++ clause
      | none => "whether " ++ clause
    ensurePeriod (speaker ++ " asked " ++ targetClause)
  else if parsed.questionWord = "how" then
    let topic := normalizeHowTopic remainder
    let targetClause :=
      match target with
      | some t => t ++ " about " ++ topic
      | none => "about " ++ topic
    ensurePeriod (speaker ++ " asked " ++ targetClause)
  else
    let questionWord := if parsed.questionWord = "" then "what" else parsed.questionWord
    let clause := lowercaseFirst remainder
    let targetClause :=
      match target with
      | some t => t ++ " " ++ questionWord ++ " " ++ clause
      | none => questionWord ++ " " ++ clause
    ensurePeriod (speaker ++ " asked " ++ targetClause)

/-- The body of `detectAnswerSentence`'s lookahead loop (agent.ts:1776):
`window` is the slice of up to 5 entries after the matched question. -/
def detectAnswerLoop (parsed : QuestionParseResult)
    (targetNormalized : Option Chars) : List ConversationEntry → Option String
  | [] => none
  | e :: rest =>
    if e.content = "" then detectAnswerLoop parsed targetNormalized rest
    else if (match targetNormalized with
             | some t => normalizeNameL e.speaker.data != t
             | none => false) then
      detectAnswerLoop parsed targetNormalized rest
    else
      match classifyAnswerTone e.content with
      | none => detectAnswerLoop parsed targetNormalized rest
      | some tone =>
        let statement := buildAnswerStatement parsed tone
        if statement = "" then detectAnswerLoop parsed targetNormalized rest
        else
          let verb := if tone = AnswerTone.positive then "confirmed" else "reported"
          some (ensurePeriod
            (capitalizeWords e.speaker ++ " " ++ verb ++ " that " ++ statement))

/-- `detectAnswerSentence` (agent.ts:1757). -/
def detectAnswerSentence (asker : String) (parsed : QuestionParseResult)
    (conversationEntries : List ConversationEntry) : Option String :=
  let questionIndex := findConversationEntryIndex conversationEntries asker parsed.original
  if questionIndex = -1 then none
  else
    let targetNormalized := parsed.targetName.map (fun t => normalizeNameL t.data)
    detectAnswerLoop parsed targetNormalized
      ((conversationEntries.drop (questionIndex.toNat + 1)).take 5)

end XSum

namespace XSum

/-- Fixed-word global replace for `/\bword\b/gi` (`word = p0 :: ps`): scan with
a boundary flag, splice `repl` for each match, resume after the matched text.
Every pattern used ends in a letter, so no boundary holds immediately after a
match and the flag resumes as `false`. -/
def replaceWordCIAux (p0 : Char) (ps repl : Chars) : Nat → Bool → Chars → Chars
  | 0, _, s => s
  | _ + 1, _, [] => []
  | fuel + 1, bOk, c :: rest =>
    if bOk && matchesHereB (p0 :: ps) (c :: rest) then
      repl ++ replaceWordCIAux p0 ps repl fuel false (rest.drop ps.length)
    else c :: replaceWordCIAux p0 ps repl fuel (!wordChar c) rest

/-- Each step consumes at least one input character, so `length + 1` fuel is
never exhausted and the `0` branch is unreachable. -/
def replaceWordCI (p0 : Char) (ps repl : Chars) (bOk : Bool) (s : Chars) : Chars :=
  replaceWordCIAux p0 ps repl (s.length + 1) bOk s

/-- `/\bI\b/g` (case-sensitive) global replace. -/
def replaceWordI (repl : Chars) : Bool → Chars → Chars
  | _, [] => []
  | bOk, c :: rest =>
    if bOk && c = 'I' && boundaryHead rest then
      repl ++ replaceWordI repl false rest
    else c :: replaceWordI repl (!wordChar c) rest

/-- `/\bi\s+am\b/gi` global replace (variable-length whitespace run). -/
def replaceIAmAux (repl : Chars) : Nat → Bool → Chars → Chars
  | 0, _, s => s
  | _ + 1, _, [] => []
  | fuel + 1, bOk, c :: rest =>
    if bOk && charCIEq c 'i' && !(rest.takeWhile isJsWs).isEmpty &&
        prefixCI (("am").data) (rest.dropWhile isJsWs) &&
        boundaryHead ((rest.dropWhile isJsWs).drop 2) then
      repl ++ replaceIAmAux repl fuel false ((rest.dropWhile isJsWs).drop 2)
    else c :: replaceIAmAux repl fuel (!wordChar c) rest

/-- Each step consumes at least one input character, so `length + 1` fuel is
never exhausted. -/
def replaceIAm (repl : Chars) (bOk : Bool) (s : Chars) : Chars :=
  replaceIAmAux repl (s.length + 1) bOk s

/-- `neutralizeFirstPersonPronouns` (agent.ts:1597): the ten global
replacements, applied in the order of the source's array. -/
def neutralizeFirstPersonPronouns (text : Chars) (speaker : Chars) : Chars :=
  let speakerName := capitalizeWordsL speaker
  let t1 := replaceWordCI 'i' [apoChar, 'm'] (speakerName ++ (" is").data) true text
  let t2 := replaceIAm (speakerName ++ (" is").data) true t1
  let t3 := replaceWordCI 'i' [apoChar, 'v', 'e'] (speakerName ++ (" has").data) true t2
  let t4 := replaceWordCI 'i' [apoChar, 'l', 'l'] (speakerName ++ (" will").data) true t3
  let t5 := replaceWordCI 'i' [apoChar, 'd'] (speakerName ++ (" would").data) true t4
  let t6 := replaceWordI speakerName true t5
  let t7 := replaceWordCI 'm' (("e").data) (("them").data) true t6
  let t8 := replaceWordCI 'm' (("yself").data) (("themself").data) true t7
  let t9 := replaceWordCI 'm' (("y").data) (("their").data) true t8
  replaceWordCI 'm' (("ine").data) (("theirs").data) true t9

def isDashChar (c : Char) : Bool := c = '–' || c = '—' || c = '-'

/-- `replace(/\s*[–—-]\s*/g, " ")`. -/
def replaceDashRunsAux : Nat → Chars → Chars
  | 0, s => s
  | _ + 1, [] => []
  | fuel + 1, c :: rest =>
    match (c :: rest).dropWhile isJsWs with
    | d :: r =>
      if isDashChar d then
        (' ' : Char) :: replaceDashRunsAux fuel (r.dropWhile isJsWs)
      else c :: replaceDashRunsAux fuel rest
    | [] => c :: replaceDashRunsAux fuel rest

/-- Each step consumes at least one input character, so `length + 1` fuel is
never exhausted. -/
def replaceDashRuns (s : Chars) : Chars := replaceDashRunsAux (s.length + 1) s

/-- `replace(/\s+,/g, ",")`. -/
def replaceWsCommaAux : Nat → Chars → Chars
  | 0, s => s
  | _ + 1, [] => []
  | fuel + 1, c :: rest =>
    if isJsWs c then
      match rest.dropWhile isJsWs with
      | d :: r =>
        if d = ',' then (',' : Char) :: replaceWsCommaAux fuel r
        else c :: replaceWsCommaAux fuel rest
      | [] => c :: replaceWsCommaAux fuel rest
    else c :: replaceWsCommaAux fuel rest

/-- Each step consumes at least one input character, so `length + 1` fuel is
never exhausted. -/
def replaceWsComma (s : Chars) : Chars := replaceWsCommaAux (s.length + 1) s

/-- The fourteen single-word discourse markers of `DISCOURSE_MARKER_REGEX`
(agent.ts:1585), in the order of the source alternation. -/
def discourseMarkers : List Chars :=
  [("well").data, ("ok").data, ("okay").data, ("oh").data, ("anyway").data,
   ("so").data, ("hey").data, ("hmm").data, ("hm").data, ("um").data,
   ("uh").data, ("alright").data, ("right").data, ("ah").data]

/-- The separator class `[\s,;-]` of the discourse-marker regex. -/
def discSepChar (c : Char) : Bool := isJsWs c || c = ',' || c = ';' || c = '-'

/-- One application of `replace(DISCOURSE_MARKER_REGEX, "")`: a marker
(case-insensitive) followed by at least one separator character; the greedy
`[\s,;-]+` removes the whole separator run. -/
def tryStripDiscourse (s : Chars) : Option Chars :=
  discourseMarkers.firstM (fun m =>
    if prefixCI m s then
      match s.drop m.length with
      | c :: rest => if discSepChar c then some (rest.dropWhile discSepChar) else none
      | [] => none
    else none)

/-- The `while (DISCOURSE_MARKER_REGEX.test(working))` loop of
`stripDiscourseMarkers`; each iteration removes at least three characters, so
`length + 1` fuel can never be exhausted before the regex stops matching. -/
def stripDiscourseLoop : Nat → Chars → Chars
  | 0, s => s
  | fuel + 1, s =>
    match tryStripDiscourse s with
    | some r => stripDiscourseLoop fuel (jsTrimL r)
    | none => s

/-- `replace(/^(?:never\s?mind)[\s,;-]+/i, "")` (the greedy optional `\s?` is
tried with one whitespace character first). -/
def stripNeverMind (s : Chars) : Chars :=
  let afterNever : Option Chars :=
    if prefixCI (("never").data) s then
      let r := s.drop 5
      match r with
      | c :: rest =>
        if isJsWs c && prefixCI (("mind").data) rest then some (rest.drop 4)
        else if prefixCI (("mind").data) r then some (r.drop 4)
        else none
      | [] => none
    else none
  match afterNever with
  | some rem =>
    (match rem with
     | c :: rest => if discSepChar c then rest.dropWhile discSepChar else s
     | [] => s)
  | none => s

/-- `stripDiscourseMarkers` (agent.ts:1587). -/
def stripDiscourseMarkers (text : Chars) : Chars :=
  let working := jsTrimL text
  let working2 := stripDiscourseLoop (working.length + 1) working
  jsTrimL (stripNeverMind working2)

end XSum

namespace XSum

/-- `COMMON_LOWER_WORDS` (agent.ts:1622). -/
def commonLowerWords : List Chars :=
  [("the").data, ("this").data, ("that").data, ("there").data, ("then").data,
   ("they").data, ("these").data, ("those").data, ("here").data, ("good").data,
   ("great").data, ("well").data, ("okay").data, ("anyway").data,
   ("however").data, ("also").data, ("maybe").data, ("possibly").data,
   ("never").data, ("absentees").data]

/-- The class `[A-Za-z0-9'`()-]` of `isLikelyProperNoun`'s regex tail and of
the first-word match. -/
def properNounChar (c : Char) : Bool :=
  isAsciiLetter c || isDigitChar c || c = apoChar || c = backqChar ||
  c = '(' || c = ')' || c = '-'

/-- `isLikelyProperNoun` (agent.ts:1645). -/
def isLikelyProperNoun (word : Chars) : Bool :=
  match word with
  | [] => false
  | c :: rest =>
    isAsciiUpper c && rest.all properNounChar &&
      !(commonLowerWords.contains (word.map Char.toLower))

/-- `isSameName` (agent.ts:1659). -/
def isSameName (a b : Chars) : Bool := normalizeNameL a == normalizeNameL b

/-- Longest non-empty prefix of the run (given reversed) whose last character
sits at a `\b` against `next`; `\b` holds when exactly one side is a word
character. -/
def firstWordBackAux : Chars → Option Char → Option Chars
  | [], _ => none
  | c :: revRest, next =>
    if wordChar c != (match next with | some d => wordChar d | none => false) then
      some ((c :: revRest).reverse)
    else firstWordBackAux revRest (some c)

/-- `clause.match(/^([A-Za-z0-9'`()-]+)\b/)`: the maximal leading class run,
backtracked until a word boundary follows. -/
def firstWordOf (s : Chars) : Option Chars :=
  let run := s.takeWhile properNounChar
  if run.isEmpty then none
  else firstWordBackAux run.reverse ((s.drop run.length).head?)

/-- `isSentencePunct` is the class `[.!?]`. -/
def isSentencePunct (c : Char) : Bool := c = '.' || c = '!' || c = '?'

/-- The successive matches of `/[^.!?]+[.!?]?/g`: skip punctuation, then take a
non-punctuation run plus at most one closing punctuation character. -/
def sentencePiecesAux : Nat → Chars → List Chars
  | 0, _ => []
  | _ + 1, [] => []
  | fuel + 1, c :: rest =>
    if isSentencePunct c then sentencePiecesAux fuel rest
    else
      let run := (c :: rest).takeWhile (fun x => !isSentencePunct x)
      match (c :: rest).dropWhile (fun x => !isSentencePunct x) with
      | [] => [run]
      | p :: rest2 => (run ++ [p]) :: sentencePiecesAux fuel rest2

/-- Each step consumes at least one input character, so `length + 1` fuel is
never exhausted. -/
def sentencePieces (s : Chars) : List Chars := sentencePiecesAux (s.length + 1) s

/-- `splitIntoSentences` (agent.ts:1689). -/
def splitIntoSentences (text : Chars) : List Chars :=
  let trimmed := jsTrimL text
  if trimmed.isEmpty then []
  else
    let sentences := sentencePieces trimmed
    if !sentences.isEmpty then
      (sentences.map jsTrimL).filter (fun s => !s.isEmpty)
    else [trimmed]

/-- `rewriteThirdPartyStatement` (agent.ts:1663). -/
def rewriteThirdPartyStatement (speaker clause : Chars) : Chars :=
  let sentences := splitIntoSentences clause
  match sentences with
  | [] => ensurePeriodL (speaker ++ (" shared an update.").data)
  | s0 :: restS =>
    let firstSentence := jsTrimL ((s0.reverse.dropWhile isSentencePunct).reverse)
    if firstSentence.isEmpty then
      ensurePeriodL (speaker ++ (" shared an update.").data)
    else
      let rewritten := ensurePeriodL (speaker ++ (" relayed that ").data ++ firstSentence)
      if restS.isEmpty then rewritten
      else
        let tail := (restS.map (fun s => ensurePeriodL (capitalizeFirstL (jsTrimL s)))).filter
          (fun s => !s.isEmpty)
        let tailText := joinSpace tail
        if tailText.isEmpty then rewritten
        else jsTrimL (rewritten ++ [' '] ++ tailText)

/-- `rewriteStatementBullet` (agent.ts:1540). -/
def rewriteStatementBullet (speaker clauseSource : Chars)
    (speakerSet : List Chars) : Chars :=
  let clause0 := jsTrimL clauseSource
  let clause1 := stripDiscourseMarkers clause0
  if clause1.isEmpty then speaker ++ (" shared an update.").data
  else
    let clause2 := neutralizeFirstPersonPronouns clause1 speaker
    let clause3 := replaceWsComma (replaceDashRuns clause2)
    if clause3.isEmpty then speaker ++ (" shared an update.").data
    else if (match clause3 with
             | c :: rest => charCIEq c 'i' && boundaryHead rest
             | [] => false) then
      ensurePeriodL (capitalizeFirstL (speaker ++ clause3.drop 1))
    else
      match firstWordOf clause3 with
      | some firstWord =>
        if isLikelyProperNoun firstWord && !isSameName firstWord speaker then
          rewriteThirdPartyStatement speaker clause3
        else if (firstWord.map Char.toLower != speaker.map Char.toLower) &&
            speakerSet.contains (normalizeNameL firstWord) then
          ensurePeriodL (capitalizeFirstL clause3)
        else ensurePeriodL (speaker ++ [' '] ++ lowercaseFirstL clause3)
      | none => ensurePeriodL (speaker ++ [' '] ++ lowercaseFirstL clause3)

/-- `buildSentence` (agent.ts:1498). -/
def buildSentence (statement : Chars) : Chars :=
  let cleaned := jsTrimL (collapseWs statement)
  if cleaned.isEmpty then []
  else if (match cleaned.getLast? with
           | some c => c = '?' || c = '？'
           | none => false) then
    let core := jsTrimL ((cleaned.reverse.dropWhile (fun c => c = '?' || c = '？')).reverse)
    capitalizeFirstL core ++ [('?' : Char)]
  else
    let sentence := capitalizeFirstL cleaned
    match sentence.getLast? with
    | some c => if c = '.' || c = '!' || c = '?' then sentence else sentence ++ [('.' : Char)]
    | none => sentence ++ [('.' : Char)]

/-- `rewriteQuestionBullet` (agent.ts:1521). -/
def rewriteQuestionBullet (speaker rawQuestion : String)
    (conversationEntries : List ConversationEntry) : String :=
  let parsed := parseQuestion rawQuestion
  match detectAnswerSentence speaker parsed conversationEntries with
  | some answerSentence => answerSentence
  | none => buildAskedSentence speaker parsed

/-- `buildSentenceWithSpeaker` (agent.ts:1451). -/
def buildSentenceWithSpeaker (speaker statement : String)
    (conversationEntries : List ConversationEntry) (speakerSet : List Chars) :
    String :=
  let normalizedSpeaker := capitalizeWordsL speaker.data
  let cleaned := jsTrimL (collapseWs statement.data)
  if cleaned.isEmpty then String.mk (normalizedSpeaker ++ (" shared an update.").data)
  else
    let clauseSource :=
      if prefixEq (normalizedSpeaker.map Char.toLower) (cleaned.map Char.toLower) then
        let a := jsTrimL (cleaned.drop normalizedSpeaker.length)
        match a with
        | c :: rest =>
          if c = ',' || c = ':' || c = '-' then jsTrimL (rest.dropWhile isJsWs) else a
        | [] => a
      else cleaned
    if clauseSource.isEmpty then
      String.mk (normalizedSpeaker ++ (" shared an update.").data)
    else
      let sanitizedClause := jsTrimL (replaceWsComma (replaceDashRuns
        (neutralizeFirstPersonPronouns (stripDiscourseMarkers clauseSource)
          normalizedSpeaker)))
      if sanitizedClause.isEmpty then
        String.mk (normalizedSpeaker ++ (" shared an update.").data)
      else if (match clauseSource.getLast? with
               | some c => c = '?' || c = '？'
               | none => false) then
        rewriteQuestionBullet (String.mk normalizedSpeaker)
          (String.mk sanitizedClause) conversationEntries
      else
        String.mk (rewriteStatementBullet normalizedSpeaker clauseSource speakerSet)

end XSum

namespace XSum

/-- The speaker-prefix class `[A-Za-z0-9_'`().\-\s]` of the colon match
(agent.ts:1345). -/
def colonClassChar (c : Char) : Bool :=
  isAsciiLetter c || isDigitChar c || c = '_' || c = apoChar || c = backqChar ||
  c = '(' || c = ')' || c = '.' || c = '-' || isJsWs c

/-- `text.match(/^([A-Za-z0-9_'`().\-\s]{1,60}):\s*(.+)$/)`: the class excludes
`:`, so the only candidate split point is the first colon; the prefix must be
1–60 class characters; after the colon the greedy `\s*` and the
newline-free, non-empty `(.+)$` follow (if everything after the colon is
whitespace, backtracking leaves exactly the last character for `(.+)` provided
it is not a line terminator). -/
def colonSplit (text : Chars) : Option (Chars × Chars) :=
  match firstIdxOf ':' text with
  | none => none
  | some i =>
    if 1 ≤ i && i ≤ 60 && (text.take i).all colonClassChar then
      let rest := text.drop (i + 1)
      let restTail := rest.dropWhile isJsWs
      if !restTail.isEmpty && restTail.all (fun c => !isLineTerm c) then
        some (text.take i, restTail)
      else
        match rest.getLast? with
        | some c =>
          if restTail.isEmpty && !isLineTerm c then some (text.take i, [c])
          else none
        | none => none
    else none

/-- `text.match(/^([A-Z][A-Za-z0-9']{2,})(?:\s+|,|--)(.+)$/)` (agent.ts:1353). -/
def impliedSplit (text : Chars) : Option (Chars × Chars) :=
  match text with
  | [] => none
  | c :: _ =>
    if !isAsciiUpper c then none
    else
      let run := text.takeWhile nameWordChar
      if run.length < 3 then none
      else
        let after := text.drop run.length
        match after with
        | [] => none
        | d :: after1 =>
          if isJsWs d then
            let rest2 := after.dropWhile isJsWs
            if !rest2.isEmpty && rest2.all (fun x => !isLineTerm x) then
              some (run, rest2)
            else
              match after.getLast? with
              | some lc =>
                if rest2.isEmpty && 2 ≤ after.length && !isLineTerm lc then
                  some (run, [lc])
                else none
              | none => none
          else if d = ',' then
            if !after1.isEmpty && after1.all (fun x => !isLineTerm x) then
              some (run, after1)
            else none
          else if d = '-' then
            match after1 with
            | e :: after2 =>
              if e = '-' && !after2.isEmpty && after2.all (fun x => !isLineTerm x) then
                some (run, after2)
              else none
            | [] => none
          else none

/-- `transformLineToBullet` (agent.ts:1325). -/
def transformLineToBullet (line : String)
    (conversationEntries : List ConversationEntry) (speakerSet : List Chars) :
    String :=
  let text0 := jsTrimL line.data
  if text0.isEmpty then ""
  else
    let text :=
      match text0 with
      | '•' :: rest => jsTrimL rest
      | '-' :: _ => jsTrimL ((text0.dropWhile (· = '-')).dropWhile isJsWs)
      | _ => text0
    if text.isEmpty then ""
    else
      let colonRes := colonSplit text
      let (speakerOpt, statement) :=
        match colonRes with
        | some (sp, st) => (some (jsTrimL sp), jsTrimL st)
        | none =>
          match impliedSplit text with
          | some (cand, stmt) =>
            if speakerSet.contains (normalizeNameL (jsTrimL cand)) then
              (some (jsTrimL cand), jsTrimL stmt)
            else (none, text)
          | none => (none, text)
      if statement.isEmpty then ""
      else
        let body :=
          match speakerOpt with
          | some sp =>
            (buildSentenceWithSpeaker (String.mk sp) (String.mk statement)
              conversationEntries speakerSet).data
          | none => buildSentence statement
        if body.isEmpty then "" else String.mk (("• ").data ++ body)

end XSum

namespace XSum

/-- `ScoredBullet` (the transient objects of `filterAndRankBullets`). -/
structure ScoredBullet where
  bullet : String
  score : Int
  index : Nat
deriving Repr, DecidableEq

/-- Stable insertion sort on the `index` field, the effect of
`retained.sort((a, b) => a.index - b.index)` (all indices are distinct). -/
def insertByIdx (x : ScoredBullet) : List ScoredBullet → List ScoredBullet
  | [] => [x]
  | y :: rest =>
    if x.index ≤ y.index then x :: y :: rest else y :: insertByIdx x rest

def sortByIdx : List ScoredBullet → List ScoredBullet
  | [] => []
  | x :: rest => insertByIdx x (sortByIdx rest)

/-- JS `Array.prototype.reduce` without an initial value: throws on an empty
array (`none`), otherwise folds from the second element. -/
def jsReduce (f : α → α → α) : List α → Option α
  | [] => none
  | x :: xs => some (xs.foldl f x)

/-- `filterAndRankBullets` (agent.ts:1374).  The `none` result models the
`TypeError` of `reduce` on an empty array, which the source guards against. -/
def filterAndRankBullets (bullets : List String) : Option (List String) :=
  let scored := bullets.enum.map
    (fun p => ScoredBullet.mk p.2 (scoreBullet p.2) p.1)
  let retained := scored.filter (fun item => decide (0 ≤ item.score))
  if !retained.isEmpty then
    some ((sortByIdx retained).map (fun item => item.bullet))
  else if !scored.isEmpty then
    (jsReduce (fun prev current =>
        if prev.score < current.score then current else prev) scored).map
      (fun best => [best.bullet])
  else some []

/-- A separator match of `split(/\s*•\s*/)` starting here: whitespace run, a
bullet, and the following whitespace run; returns the remainder. -/
def bulletSepRem (s : Chars) : Option Chars :=
  match s.dropWhile isJsWs with
  | d :: r => if d = '•' then some (r.dropWhile isJsWs) else none
  | [] => none

/-- `bullet.split(/\s*•\s*/)`. -/
def splitBulletSepsAux (acc : Chars) : Nat → Chars → List Chars
  | 0, s => [(s.reverse ++ acc).reverse]
  | _ + 1, [] => [acc.reverse]
  | fuel + 1, c :: rest =>
    match bulletSepRem (c :: rest) with
    | some r => acc.reverse :: splitBulletSepsAux [] fuel r
    | none => splitBulletSepsAux (c :: acc) fuel rest

/-- Each step consumes at least one input character, so `length + 1` fuel is
never exhausted. -/
def splitBulletSeps (s : Chars) : List Chars :=
  splitBulletSepsAux [] (s.length + 1) s

/-- The intro/body computation of `normalizeSummaryBullets` (agent.ts:1275):
`first` is `rawLines[0]`, `restLines` is `rawLines.slice(1)`; the first colon
of the intro line truncates it and moves any non-empty suffix to the front of
the body. -/
def introBody (first : Chars) (restLines : List Chars) : Chars × Chars :=
  let introLine0 := jsTrimL first
  let bodyText0 := jsTrimL (joinNl restLines)
  match firstIdxOf ':' introLine0 with
  | some idx =>
    let introPre := jsTrimL (introLine0.take (idx + 1))
    let introSuffix := jsTrimL (introLine0.drop (idx + 1))
    (introPre,
      if introSuffix.isEmpty then bodyText0
      else if bodyText0.isEmpty then introSuffix
      else introSuffix ++ '\n' :: bodyText0)
  | none => (introLine0, bodyText0)

/-- `bodyText.split(/\n+/).map(trim).filter(Boolean)` (agent.ts:1292). -/
def bulletSourcesOf (bodyText : Chars) : List Chars :=
  ((splitNlRuns bodyText).map jsTrimL).filter (fun l => !l.isEmpty)

/-- The candidate bullets of `normalizeSummaryBullets` (agent.ts:1297):
transform each source line, dropping the empty results. -/
def rawBulletsOf (conversationEntries : List ConversationEntry)
    (speakerSet : List Chars) (bodyText : Chars) : List String :=
  ((bulletSourcesOf bodyText).map (fun l =>
    transformLineToBullet (String.mk l) conversationEntries speakerSet)).filter
      (fun b => b != "")

/-- `normalizeSummaryBullets` (agent.ts:1261).  `none` marks the two places
where the JS code could only fail (indexing `rawLines[0]` out of bounds and
`reduce` on an empty array); both are proved unreachable below. -/
def normalizeSummaryBullets (summary : String)
    (conversationEntries : List ConversationEntry) : Option String :=
  let trimmed := jsTrimL summary.data
  if trimmed.isEmpty then some (String.mk trimmed)
  else
    let speakerSet := conversationEntries.map (fun e => normalizeNameL e.speaker.data)
    match splitNlRuns trimmed with
    | [] => none
    | first :: restLines =>
      let introLine := (introBody first restLines).1
      let bodyText := (introBody first restLines).2
      if bodyText.isEmpty then some (String.mk introLine)
      else
        let bullets := rawBulletsOf conversationEntries speakerSet bodyText
        match filterAndRankBullets bullets with
        | none => none
        | some filteredBullets =>
          if filteredBullets.isEmpty then
            some (String.mk (jsTrimL (introLine ++ '\n' :: bodyText)))
          else
            let expandedBullets := filteredBullets.flatMap (fun bullet =>
              if containsSub ((" • ").data) bullet.data then
                ((splitBulletSeps bullet.data).map jsTrimL).filter
                  (fun p => !p.isEmpty)
              else [bullet.data])
            let lines := expandedBullets.map (fun l =>
              match l with
              | '•' :: _ => l
              | _ => ("• ").data ++ l)
            some (String.mk (introLine ++ '\n' :: joinNl lines))

/-- `timeBasedGreeting` (agent.ts:1233); `hour` is `now.getHours()`. -/
def timeBasedGreeting (hour : Nat) : String :=
  if 5 ≤ hour ∧ hour < 12 then "Good morning!"
  else if 12 ≤ hour ∧ hour < 17 then "Good afternoon!"
  else if 17 ≤ hour ∧ hour < 22 then "Good evening!"
  else "Hello!"

/-- After `good`, the regex requires `\s+` then one of the four day words
(the alternatives start with non-whitespace, so `\s+` is the maximal run). -/
def goodTail : Chars → Bool
  | [] => false
  | c :: rest =>
    isJsWs c &&
      (let r := (c :: rest).dropWhile isJsWs
       prefixCI (("morning").data) r || prefixCI (("afternoon").data) r ||
       prefixCI (("evening").data) r || prefixCI (("night").data) r)

/-- `/^(good\s+(morning|afternoon|evening|night)|hello|hi|hey|greetings)/i`. -/
def greetingStart (s : Chars) : Bool :=
  prefixCI (("hello").data) s || prefixCI (("hi").data) s ||
  prefixCI (("hey").data) s || prefixCI (("greetings").data) s ||
  (prefixCI (("good").data) s && goodTail (s.drop 4))

/-- The `windowPhrase` of `ensureGreeting` (agent.ts:1215): a positive
lookback wins, then a non-blank range label, then "this period". -/
def windowPhraseOf (lookbackMinutes : Option Int)
    (rangeLabel : Option String) : Chars :=
  let rlPhrase : Chars :=
    match rangeLabel with
    | some l => if (jsTrimL l.data).isEmpty then ("this period").data else jsTrimL l.data
    | none => ("this period").data
  match lookbackMinutes with
  | some n =>
    if 0 < n then ("the last ").data ++ (toString n).data ++ (" minutes").data
    else rlPhrase
  | none => rlPhrase

/-- `ensureGreeting` (agent.ts:1197).  `hour` replaces the implicit
`new Date().getHours()` wall clock. -/
def ensureGreeting (summary : String) (lookbackMinutes : Option Int)
    (rangeLabel : Option String) (hour : Nat) : String :=
  let trimmed := jsTrimL summary.data
  if trimmed.isEmpty then String.mk trimmed
  else if greetingStart trimmed then String.mk trimmed
  else
    let intro := (timeBasedGreeting hour).data ++
      (" Here is what happened in ").data ++
      windowPhraseOf lookbackMinutes rangeLabel ++ [(':' : Char)]
    if prefixEq (("•").data) trimmed || prefixEq (("-").data) trimmed then
      String.mk (intro ++ '\n' :: trimmed)
    else String.mk (jsTrimL (intro ++ ' ' :: trimmed))

/-- `finalizeSummary` (agent.ts:1251). -/
def finalizeSummary (rawSummary : String) (lookbackMinutes : Option Int)
    (rangeLabel : Option String) (hour : Nat)
    (conversationEntries : List ConversationEntry) : Option String :=
  normalizeSummaryBullets
    (ensureGreeting rawSummary lookbackMinutes rangeLabel hour)
    conversationEntries

/-- `extractConversationEntries` (agent.ts:1181). -/
def extractConversationEntries (conversation : String) : List ConversationEntry :=
  (((splitNlRuns conversation.data).map jsTrimL).filter (fun l => !l.isEmpty)).map
    (fun line =>
      match firstIdxOf ':' line with
      | none => { speaker := "Unknown", content := String.mk line }
      | some idx =>
        { speaker := String.mk (jsTrimL (line.take idx)),
          content := String.mk (jsTrimL (line.drop (idx + 1))) })

/-- `MAX_LOOKBACK_MINUTES` (lookback.ts:1). -/
def MAX_LOOKBACK_MINUTES : Int := 8 * 60

inductive LookbackResult where
  | error (message : String)
  | minutes (m : Int)
deriving Repr, DecidableEq

/-- `validateLookback` (lookback.ts:3).  `numeric` is the value of
`Number(rawValue)`: `none` models a non-finite coercion result (NaN or ±∞);
every finite double is an exact rational, and `Math.floor` is `Int.floor`. -/
def validateLookback (numeric : Option ℚ) : LookbackResult :=
  match numeric with
  | none => LookbackResult.error "Lookback must be provided as a number of minutes."
  | some q =>
    let minutes : Int := ⌊q⌋
    if minutes ≤ 0 then LookbackResult.error "Lookback must be at least 1 minute."
    else if MAX_LOOKBACK_MINUTES < minutes then
      LookbackResult.error "Lookback may not exceed 480 minutes (8 hours)."
    else LookbackResult.minutes minutes

end XSum

namespace XSum

/-- Number of lines of a final text that are bullet lines (start with `•`). -/
def bulletLineCount (s : String) : Nat :=
  (splitNlRuns s.data).countP (fun l =>
    match l with
    | '•' :: _ => true
    | _ => false)

/-- Number of non-empty (after trimming) lines of the input body, i.e. of
everything after the first line of the trimmed raw summary. -/
def nonEmptyBodyLineCount (s : String) : Nat :=
  (((splitNlRuns (jsTrimL s.data)).drop 1).map jsTrimL).countP (fun l => !l.isEmpty)

/-- Observable: the greeting/intro first line of an output (the characters
before the first line feed). -/
def firstLine (s : String) : Chars := s.data.takeWhile (fun c => c ≠ '\n')

/-- Does a piece contain a non-whitespace character (equivalently: is it
non-empty after trimming)? -/
def hasContent (l : Chars) : Bool := l.any (fun c => !isJsWs c)

/-- The number of newline-delimited segments of `s` containing at least one
non-whitespace character; `counted` records whether the current segment has
already been counted. -/
def contentSegCount : Bool → Chars → Nat
  | _, [] => 0
  | counted, c :: rest =>
    if c = '\n' then contentSegCount false rest
    else if isJsWs c then contentSegCount counted rest
    else (if counted then 0 else 1) + contentSegCount true rest

/-- The flag state of `contentSegCount` after processing `s`. -/
def contentSegState : Bool → Chars → Bool
  | b, [] => b
  | b, c :: rest =>
    if c = '\n' then contentSegState false rest
    else if isJsWs c then contentSegState b rest
    else contentSegState true rest

/-- The number of trim-non-empty pieces of a piece list. -/
def neCount (M : List Chars) : Nat :=
  M.countP (fun l => !(jsTrimL l).isEmpty)

/-- The appended action phrase of C7 (without the separating space). -/
def actionPhrase : Chars := ("must ship by Friday").data

end XSum

namespace XSum

set_option maxRecDepth 1000000

/-- C1 (counterexample): on the body line `"Alice: I will ship the report"`
with `conversationEntries = [{speaker := "Alice", content := "hello"}]` the
pipeline emits the bullet `"• Alice alice will ship the report."`, not the
claimed `"Alice will ship the report."`: the redundant-speaker strip runs
before pronoun neutralization, so the speaker name substituted for `I` is
prefixed with the speaker again (lower-cased) by the default statement
rewrite. -/
theorem C1_speaker_attribution_counterexample :
    transformLineToBullet "Alice: I will ship the report"
        [{ speaker := "Alice", content := "hello" }]
        (([{ speaker := "Alice", content := "hello" }] :
            List ConversationEntry).map (fun e => normalizeNameL e.speaker.data)) =
      "• Alice alice will ship the report." ∧
    ("• Alice alice will ship the report." : String) ≠
      "• Alice will ship the report." ∧
    ("• Alice alice will ship the report." : String) ≠
      "Alice will ship the report." := by
  refine ⟨rfl, ?_, ?_⟩ <;> decide

/-- C1 (amended): for the body line `"Alice: I will ship the report"` and any
`conversationEntries` and speaker set whatsoever (in particular any list
containing an entry with speaker `"Alice"`), the produced bullet is exactly
`"• Alice alice will ship the report."` — the first-person pronoun is replaced
by the speaker's name, but the default branch of the statement rewriter
prepends the speaker once more, lower-casing the first letter of the
substituted clause. -/
theorem C1_speaker_attribution_amended (conversationEntries : List ConversationEntry)
    (speakerSet : List Chars) :
    transformLineToBullet "Alice: I will ship the report" conversationEntries
        speakerSet = "• Alice alice will ship the report." := rfl

/-- C2: for conversation entries `[{Alice, "Did we fix the bug?"},
{Bob, "Yes, deployed an hour ago."}]` and the summary body line
`"Alice: Did we fix the bug?"`, `finalizeSummary` (at any clock hour; the
input already starts with a greeting token) emits the answer-form bullet
`"• Bob confirmed that we fix the bug."` — responder Bob with verb
`confirmed` for the affirmative cue, and the Step-4 yes/no reconstruction of
the `did`-question remainder `"we fix the bug"` — and not a generic
`"Alice asked whether ..."` sentence, because Bob's affirmative reply sits in
the 5-entry lookahead window after the matched question entry. -/
theorem C2_question_answer_pairing (hour : Nat) :
    finalizeSummary "Hello team\nAlice: Did we fix the bug?" none none hour
        [{ speaker := "Alice", content := "Did we fix the bug?" },
         { speaker := "Bob", content := "Yes, deployed an hour ago." }] =
      some "Hello team\n• Bob confirmed that we fix the bug." ∧
    containsSub (("Bob confirmed that ").data)
      ("Hello team\n• Bob confirmed that we fix the bug.").data = true ∧
    containsSub (("asked").data)
      ("Hello team\n• Bob confirmed that we fix the bug.").data = false := by
  refine ⟨rfl, by decide, by decide⟩

end XSum

namespace XSum

/-- C5 (counterexample): at clock hour 9, on
`rawSummary = "Pretty quiet — vibes up, volume down."` with no conversation
entries, `finalizeSummary` does not return the greeting with the sentence
inlined: the intro line is cut at its colon, the sentence is moved into the
body and re-emitted as a bullet line, so the output contains one bullet line
although the claim asserts none are produced. -/
theorem C5_quiet_window_counterexample :
    finalizeSummary "Pretty quiet — vibes up, volume down." none none 9 [] =
      some "Good morning! Here is what happened in this period:\n• Pretty quiet — vibes up, volume down." ∧
    ("Good morning! Here is what happened in this period:\n• Pretty quiet — vibes up, volume down." : String) ≠
      "Good morning! Here is what happened in this period: Pretty quiet — vibes up, volume down." ∧
    bulletLineCount
      "Good morning! Here is what happened in this period:\n• Pretty quiet — vibes up, volume down." = 1 := by
  refine ⟨rfl, by decide, by decide⟩

/-- C5 (amended): for `rawSummary = "Pretty quiet — vibes up, volume down."`
and empty conversation entries, at every clock hour the output is the
time-of-day intro line truncated at its colon, followed by the sentence as a
single bullet line: the inlined sentence is moved to the body by the
intro-line colon split and re-extracted as a bullet. -/
theorem C5_quiet_window_amended (hour : Nat) :
    finalizeSummary "Pretty quiet — vibes up, volume down." none none hour [] =
      some (timeBasedGreeting hour ++
        " Here is what happened in this period:\n• Pretty quiet — vibes up, volume down.") := by
  by_cases h1 : 5 ≤ hour ∧ hour < 12
  · have ht : timeBasedGreeting hour = "Good morning!" := by
      unfold timeBasedGreeting
      rw [if_pos h1]
    simp only [finalizeSummary, ensureGreeting, ht]
    rfl
  · by_cases h2 : 12 ≤ hour ∧ hour < 17
    · have ht : timeBasedGreeting hour = "Good afternoon!" := by
        unfold timeBasedGreeting
        rw [if_neg h1, if_pos h2]
      simp only [finalizeSummary, ensureGreeting, ht]
      rfl
    · by_cases h3 : 17 ≤ hour ∧ hour < 22
      · have ht : timeBasedGreeting hour = "Good evening!" := by
          unfold timeBasedGreeting
          rw [if_neg h1, if_neg h2, if_pos h3]
        simp only [finalizeSummary, ensureGreeting, ht]
        rfl
      · have ht : timeBasedGreeting hour = "Hello!" := by
          unfold timeBasedGreeting
          rw [if_neg h1, if_neg h2, if_neg h3]
        simp only [finalizeSummary, ensureGreeting, ht]
        rfl

end XSum

namespace XSum

/-- C9 (counterexample): the transcript `"Alice:"` yields the entry
`{speaker := "Alice", content := ""}` — a line whose text after the first
colon is blank is kept with an empty `content`, not dropped, so the claimed
invariant "content is never empty" fails. -/
theorem C9_entry_content_counterexample :
    extractConversationEntries "Alice:" =
      [{ speaker := "Alice", content := "" }] := rfl

/-- C9 (amended): an entry produced by `extractConversationEntries` can have
empty `content` only when its source line contains a colon and the text after
the first colon trims to nothing; such lines are kept (only entirely blank
lines are dropped), and a line without a colon keeps the whole line as
content. -/
theorem C9_entry_content_amended (conversation : String)
    (entry : ConversationEntry)
    (hmem : entry ∈ extractConversationEntries conversation)
    (hempty : entry.content = "") :
    ∃ line ∈ ((splitNlRuns conversation.data).map jsTrimL).filter
        (fun l => !l.isEmpty),
      ∃ idx, firstIdxOf ':' line = some idx ∧
        (jsTrimL (line.drop (idx + 1))).isEmpty = true := by
  unfold extractConversationEntries at hmem
  rcases List.mem_map.mp hmem with ⟨line, hline, hparse⟩
  refine ⟨line, hline, ?_⟩
  cases hidx : firstIdxOf ':' line with
  | none =>
    rw [hidx] at hparse
    have hl := (List.mem_filter.mp hline).2
    subst hparse
    simp only at hempty
    have : line = [] := by
      have := congrArg String.data hempty
      simpa using this
    rw [this] at hl
    simp [List.isEmpty] at hl
  | some idx =>
    rw [hidx] at hparse
    refine ⟨idx, rfl, ?_⟩
    subst hparse
    simp only at hempty
    have := congrArg String.data hempty
    simpa using this

/-- C9 (witness): instantiating the amended theorem at the transcript
`"Alice:"` and its (kept) empty-content entry. -/
theorem C9_entry_content_amended_witness :
    ∃ line ∈ ((splitNlRuns ("Alice:").data).map jsTrimL).filter
        (fun l => !l.isEmpty),
      ∃ idx, firstIdxOf ':' line = some idx ∧
        (jsTrimL (line.drop (idx + 1))).isEmpty = true :=
  C9_entry_content_amended "Alice:" { speaker := "Alice", content := "" }
    (by decide) rfl

end XSum

namespace XSum

/-- C10: `validateLookback` errors exactly when the coerced value is not a
finite number (`none`), or its floor is ≤ 0, or its floor exceeds
`MAX_LOOKBACK_MINUTES = 8 * 60 = 480` minutes; otherwise it returns the
floored minute count.  In particular the lookback window is capped at
8 hours. -/
theorem C10_lookback_validation :
    (validateLookback none =
      LookbackResult.error "Lookback must be provided as a number of minutes.") ∧
    (∀ q : ℚ, ⌊q⌋ ≤ 0 → validateLookback (some q) =
      LookbackResult.error "Lookback must be at least 1 minute.") ∧
    (∀ q : ℚ, 480 < ⌊q⌋ → validateLookback (some q) =
      LookbackResult.error "Lookback may not exceed 480 minutes (8 hours).") ∧
    (∀ q : ℚ, 0 < ⌊q⌋ → ⌊q⌋ ≤ 480 → validateLookback (some q) =
      LookbackResult.minutes ⌊q⌋) ∧
    MAX_LOOKBACK_MINUTES = 8 * 60 ∧ MAX_LOOKBACK_MINUTES = 480 := by
  refine ⟨rfl, ?_, ?_, ?_, rfl, rfl⟩
  · intro q hq
    simp only [validateLookback]
    rw [if_pos hq]
  · intro q hq
    simp only [validateLookback, MAX_LOOKBACK_MINUTES]
    rw [if_neg (by omega), if_pos (by omega)]
  · intro q h1 h2
    simp only [validateLookback, MAX_LOOKBACK_MINUTES]
    rw [if_neg (by omega), if_neg (by omega)]

/-- C10 (witness): a 30-minute lookback validates to 30 minutes. -/
theorem C10_lookback_validation_witness :
    validateLookback (some (30 : ℚ)) = LookbackResult.minutes 30 := by
  have h := C10_lookback_validation.2.2.2.1 30 (by norm_num) (by norm_num)
  rw [show ⌊(30 : ℚ)⌋ = (30 : Int) by norm_num] at h
  exact h

end XSum

namespace XSum

theorem splitNlAux_ne_nil (s : Chars) : ∀ (sk : Bool) (acc : Chars),
    splitNlAux sk acc s ≠ [] := by
  induction s with
  | nil => intro sk acc; simp [splitNlAux]
  | cons c rest ih =>
    intro sk acc
    simp only [splitNlAux]
    split
    · split
      · exact ih true []
      · simp
    · exact ih false (c :: acc)

theorem splitNlRuns_ne_nil (s : Chars) : splitNlRuns s ≠ [] :=
  splitNlAux_ne_nil s false []

theorem filterAndRankBullets_isSome (bullets : List String) :
    (filterAndRankBullets bullets).isSome = true := by
  simp only [filterAndRankBullets]
  split
  · simp
  · split
    · rename_i hscored
      cases hs : bullets.enum.map
          (fun p => ScoredBullet.mk p.2 (scoreBullet p.2) p.1) with
      | nil => rw [hs] at hscored; simp at hscored
      | cons x xs => simp [jsReduce]
    · simp

theorem normalizeSummaryBullets_isSome (summary : String)
    (conversationEntries : List ConversationEntry) :
    (normalizeSummaryBullets summary conversationEntries).isSome = true := by
  simp only [normalizeSummaryBullets]
  split
  · simp
  · cases hsp : splitNlRuns (jsTrimL summary.data) with
    | nil => exact absurd hsp (splitNlRuns_ne_nil _)
    | cons first restLines =>
      simp only
      split
      · simp
      · have hfr := filterAndRankBullets_isSome
          (rawBulletsOf conversationEntries
            (conversationEntries.map (fun e => normalizeNameL e.speaker.data))
            (introBody first restLines).2)
        cases hfb : filterAndRankBullets
            (rawBulletsOf conversationEntries
              (conversationEntries.map (fun e => normalizeNameL e.speaker.data))
              (introBody first restLines).2) with
        | none => rw [hfb] at hfr; simp at hfr
        | some filteredBullets =>
          split
          · rename_i heq
            simp at heq
          · split <;> simp

/-- C4: the whole pipeline is total — for every raw summary (including empty
and whitespace-only strings), every window descriptor, every clock hour and
every conversation-entry list, `finalizeSummary` returns a string.  The two
places where the JS code could in principle throw (`rawLines[0]` on an empty
split result, `reduce` on an empty array) are modelled as `none` and proved
unreachable: a split never returns an empty array and `reduce` is guarded by
the length test. -/
theorem C4_finalize_total (rawSummary : String) (lookbackMinutes : Option Int)
    (rangeLabel : Option String) (hour : Nat)
    (conversationEntries : List ConversationEntry) :
    (finalizeSummary rawSummary lookbackMinutes rangeLabel hour
      conversationEntries).isSome = true :=
  normalizeSummaryBullets_isSome _ _

end XSum

namespace XSum

theorem enumFrom_map_bullet (bullets : List String) : ∀ n : Nat,
    ((List.enumFrom n bullets).map
      (fun p => ScoredBullet.mk p.2 (scoreBullet p.2) p.1)).map
        (fun item => item.bullet) = bullets := by
  induction bullets with
  | nil => intro n; rfl
  | cons b bs ih =>
    intro n
    simp only [List.enumFrom, List.map_cons, List.map_map]
    have := ih (n + 1)
    simp only [List.map_map] at this
    rw [this]

theorem enumFrom_filter_map_bullet (bullets : List String) : ∀ n : Nat,
    ((((List.enumFrom n bullets).map
        (fun p => ScoredBullet.mk p.2 (scoreBullet p.2) p.1)).filter
          (fun item => decide (0 ≤ item.score))).map
            (fun item => item.bullet)) =
      bullets.filter (fun b => decide (0 ≤ scoreBullet b)) := by
  induction bullets with
  | nil => intro n; rfl
  | cons b bs ih =>
    intro n
    simp only [List.enumFrom, List.map_cons, List.filter_cons]
    by_cases h : (0 ≤ scoreBullet b)
    · simp [h, ih (n + 1)]
    · simp [h, ih (n + 1)]

theorem enumFrom_score_eq (bullets : List String) : ∀ (n : Nat)
    (item : ScoredBullet),
    item ∈ (List.enumFrom n bullets).map
      (fun p => ScoredBullet.mk p.2 (scoreBullet p.2) p.1) →
    item.score = scoreBullet item.bullet := by
  intro n item hmem
  rcases List.mem_map.mp hmem with ⟨p, _, hp⟩
  rw [← hp]

theorem enumFrom_index_ge (bullets : List String) : ∀ (n : Nat)
    (item : ScoredBullet),
    item ∈ (List.enumFrom n bullets).map
      (fun p => ScoredBullet.mk p.2 (scoreBullet p.2) p.1) →
    n ≤ item.index := by
  induction bullets with
  | nil => intro n item hmem; simp [List.enumFrom] at hmem
  | cons b bs ih =>
    intro n item hmem
    simp only [List.enumFrom, List.map_cons, List.mem_cons] at hmem
    rcases hmem with h | h
    · rw [h]
    · exact Nat.le_of_succ_le (ih (n + 1) item h)

theorem enumFrom_index_pairwise (bullets : List String) : ∀ n : Nat,
    ((List.enumFrom n bullets).map
      (fun p => ScoredBullet.mk p.2 (scoreBullet p.2) p.1)).Pairwise
        (fun a b => a.index < b.index) := by
  induction bullets with
  | nil => intro n; simp [List.enumFrom]
  | cons b bs ih =>
    intro n
    simp only [List.enumFrom, List.map_cons, List.pairwise_cons]
    refine ⟨?_, ih (n + 1)⟩
    intro item hmem
    exact Nat.lt_of_lt_of_le (Nat.lt_succ_self n) (enumFrom_index_ge bs (n + 1) item hmem)

theorem insertByIdx_of_le (x : ScoredBullet) (l : List ScoredBullet)
    (h : ∀ y ∈ l, x.index ≤ y.index) : insertByIdx x l = x :: l := by
  cases l with
  | nil => rfl
  | cons y rest =>
    simp only [insertByIdx]
    rw [if_pos (h y (List.mem_cons_self _ _))]

theorem sortByIdx_eq_self (l : List ScoredBullet)
    (h : l.Pairwise (fun a b => a.index < b.index)) : sortByIdx l = l := by
  induction l with
  | nil => rfl
  | cons x rest ih =>
    rw [List.pairwise_cons] at h
    simp only [sortByIdx]
    rw [ih h.2]
    exact insertByIdx_of_le x rest (fun y hy => Nat.le_of_lt (h.1 y hy))

theorem foldl_pick_firstMax (xs : List ScoredBullet) : ∀ acc : ScoredBullet,
    ∃ m1 m2,
      acc :: xs = m1 ++
        (xs.foldl (fun prev current =>
          if prev.score < current.score then current else prev) acc) :: m2 ∧
      (∀ c ∈ m1, c.score <
        (xs.foldl (fun prev current =>
          if prev.score < current.score then current else prev) acc).score) ∧
      (∀ c ∈ m2, c.score ≤
        (xs.foldl (fun prev current =>
          if prev.score < current.score then current else prev) acc).score) := by
  induction xs with
  | nil =>
    intro acc
    exact ⟨[], [], rfl, by simp, by simp⟩
  | cons y ys ih =>
    intro acc
    simp only [List.foldl_cons]
    by_cases hc : acc.score < y.score
    · rw [if_pos hc]
      rcases ih y with ⟨m1, m2, heq, hlt, hle⟩
      refine ⟨acc :: m1, m2, ?_, ?_, hle⟩
      · rw [List.cons_append, ← heq]
      · intro c hc2
        rcases List.mem_cons.mp hc2 with h | h
        · subst h
          cases m1 with
          | nil =>
            simp only [List.nil_append] at heq
            have hr := ((List.cons.injEq _ _ _ _).mp heq).1
            rw [← hr]
            exact hc
          | cons z t =>
            have hz : y = z := ((List.cons.injEq _ _ _ _).mp (by simpa using heq)).1
            have hzr := hlt z (List.mem_cons_self _ _)
            rw [← hz] at hzr
            exact lt_trans hc hzr
        · exact hlt c h
    · rw [if_neg hc]
      rcases ih acc with ⟨m1, m2, heq, hlt, hle⟩
      cases m1 with
      | nil =>
        simp only [List.nil_append] at heq
        have hr := ((List.cons.injEq _ _ _ _).mp heq).1
        have hm2 := ((List.cons.injEq _ _ _ _).mp heq).2
        refine ⟨[], y :: ys, by rw [List.nil_append, ← hr], by simp, ?_⟩
        intro c hc2
        rcases List.mem_cons.mp hc2 with h | h
        · subst h
          rw [← hr]
          omega
        · rw [hm2] at h
          exact hle c h
      | cons z t =>
        have hz : acc = z := ((List.cons.injEq _ _ _ _).mp (by simpa using heq)).1
        have hys : ys = t ++ (List.foldl (fun prev current =>
            if prev.score < current.score then current else prev) acc ys) :: m2 :=
          ((List.cons.injEq _ _ _ _).mp (by simpa using heq)).2
        have hacc : acc.score < (List.foldl (fun prev current =>
            if prev.score < current.score then current else prev) acc ys).score := by
          have := hlt z (List.mem_cons_self _ _)
          rw [← hz] at this
          exact this
        refine ⟨acc :: y :: t, m2, ?_, ?_, hle⟩
        · rw [List.cons_append, List.cons_append, ← hys]
        · intro c hc2
          rcases List.mem_cons.mp hc2 with h | h
          · subst h; exact hacc
          rcases List.mem_cons.mp h with h2 | h2
          · subst h2; omega
          · have : c ∈ z :: t := List.mem_cons_of_mem _ h2
            exact hlt c this

end XSum

namespace XSum

/-- C3: `filterAndRankBullets` retains exactly the bullets scoring ≥ 0, in
their original order; when none qualifies and the list is non-empty it returns
exactly one bullet — an earliest maximum of the scores: every bullet before it
scores strictly less and every bullet after it scores no more (the behaviour
of the left-to-right `reduce`). -/
theorem C3_filter_and_rank (bullets : List String) :
    ((∃ b ∈ bullets, 0 ≤ scoreBullet b) →
      filterAndRankBullets bullets =
        some (bullets.filter (fun b => decide (0 ≤ scoreBullet b)))) ∧
    ((∀ b ∈ bullets, scoreBullet b < 0) → bullets ≠ [] →
      ∃ best l1 l2,
        filterAndRankBullets bullets = some [best] ∧
        bullets = l1 ++ best :: l2 ∧
        (∀ c ∈ l1, scoreBullet c < scoreBullet best) ∧
        (∀ c ∈ l2, scoreBullet c ≤ scoreBullet best)) := by
  have henum : bullets.enum = List.enumFrom 0 bullets := rfl
  constructor
  · rintro ⟨b, hb, hscore⟩
    have hfilter_ne : bullets.filter (fun b => decide (0 ≤ scoreBullet b)) ≠ [] := by
      intro hnil
      have hmem : b ∈ bullets.filter (fun b => decide (0 ≤ scoreBullet b)) :=
        List.mem_filter.mpr ⟨hb, by simpa using hscore⟩
      rw [hnil] at hmem
      simp at hmem
    have hmapfil := enumFrom_filter_map_bullet bullets 0
    have hretained_ne :
        ((List.enumFrom 0 bullets).map
          (fun p => ScoredBullet.mk p.2 (scoreBullet p.2) p.1)).filter
            (fun item => decide (0 ≤ item.score)) ≠ [] := by
      intro hnil
      rw [hnil] at hmapfil
      exact hfilter_ne (by simpa using hmapfil.symm)
    simp only [filterAndRankBullets, henum]
    rw [if_pos (by simpa using hretained_ne)]
    rw [sortByIdx_eq_self _
      (List.Pairwise.filter _ (enumFrom_index_pairwise bullets 0))]
    rw [hmapfil]
  · intro hAll hne
    have hretained_nil :
        ((List.enumFrom 0 bullets).map
          (fun p => ScoredBullet.mk p.2 (scoreBullet p.2) p.1)).filter
            (fun item => decide (0 ≤ item.score)) = [] := by
      rw [List.filter_eq_nil]
      intro item hitem
      have hsc := enumFrom_score_eq bullets 0 item hitem
      have hbul : item.bullet ∈ bullets := by
        rw [← enumFrom_map_bullet bullets 0]
        exact List.mem_map.mpr ⟨item, hitem, rfl⟩
      have := hAll item.bullet hbul
      simp only [decide_eq_true_eq]
      omega
    have hscored_ne :
        (List.enumFrom 0 bullets).map
          (fun p => ScoredBullet.mk p.2 (scoreBullet p.2) p.1) ≠ [] := by
      intro hnil
      have := enumFrom_map_bullet bullets 0
      rw [hnil] at this
      exact hne this.symm
    rcases List.exists_cons_of_ne_nil hscored_ne with ⟨s0, srest, hs⟩
    rcases foldl_pick_firstMax srest s0 with ⟨m1, m2, heq, hlt, hle⟩
    set r := srest.foldl (fun prev current =>
      if prev.score < current.score then current else prev) s0 with hr
    have hmemscored : ∀ item : ScoredBullet, item ∈ m1 ∨ item = r ∨ item ∈ m2 →
        item.score = scoreBullet item.bullet ∧ item.bullet ∈ bullets := by
      intro item hcase
      have hitem : item ∈ (List.enumFrom 0 bullets).map
          (fun p => ScoredBullet.mk p.2 (scoreBullet p.2) p.1) := by
        rw [hs, heq]
        rcases hcase with h | h | h
        · exact List.mem_append_left _ h
        · subst h; exact List.mem_append_right _ (List.mem_cons_self _ _)
        · exact List.mem_append_right _ (List.mem_cons_of_mem _ h)
      exact ⟨enumFrom_score_eq bullets 0 item hitem,
        by rw [← enumFrom_map_bullet bullets 0]
           exact List.mem_map.mpr ⟨item, hitem, rfl⟩⟩
    refine ⟨r.bullet, m1.map (fun item => item.bullet),
      m2.map (fun item => item.bullet), ?_, ?_, ?_, ?_⟩
    · simp only [filterAndRankBullets, henum]
      rw [if_neg (by simp [hretained_nil]), hs]
      rw [if_pos (by simp)]
      simp [jsReduce, ← hr]
    · have hmap := enumFrom_map_bullet bullets 0
      rw [hs, heq] at hmap
      rw [← hmap]
      simp
    · intro c hc
      rcases List.mem_map.mp hc with ⟨item, hitem, hbc⟩
      have h1 := hmemscored item (Or.inl hitem)
      have h2 := hmemscored r (Or.inr (Or.inl rfl))
      have := hlt item hitem
      rw [← hbc, ← h1.1, ← h2.1]
      exact this
    · intro c hc
      rcases List.mem_map.mp hc with ⟨item, hitem, hbc⟩
      have h1 := hmemscored item (Or.inr (Or.inr hitem))
      have h2 := hmemscored r (Or.inr (Or.inl rfl))
      have := hle item hitem
      rw [← hbc, ← h1.1, ← h2.1]
      exact this

/-- C3 (witness): on a two-bullet list with one qualifying bullet the first
conjunct yields exactly the score-≥0 bullets in order. -/
theorem C3_filter_and_rank_witness :
    filterAndRankBullets ["ok", "Team agreed to ship the fix today"] =
      some ["Team agreed to ship the fix today"] := by
  have h := (C3_filter_and_rank ["ok", "Team agreed to ship the fix today"]).1
    ⟨"Team agreed to ship the fix today", by decide, by decide⟩
  rw [h]
  rfl

end XSum

namespace XSum

theorem jsTrimL_isEmpty_iff (l : Chars) :
    (jsTrimL l).isEmpty = true ↔ ∀ c ∈ l, isJsWs c = true := by
  unfold jsTrimL
  rw [List.isEmpty_iff]
  constructor
  · intro h c hc
    have h2 : ((l.dropWhile isJsWs).reverse.dropWhile isJsWs) = [] := by
      have := congrArg List.reverse h
      simpa using this
    rw [List.dropWhile_eq_nil_iff] at h2
    by_cases hmem : c ∈ l.dropWhile isJsWs
    · exact h2 c (List.mem_reverse.mpr hmem)
    · have hsplit := List.takeWhile_append_dropWhile (p := isJsWs) (l := l)
      rw [← hsplit] at hc
      rcases List.mem_append.mp hc with h3 | h3
      · exact List.mem_takeWhile_imp h3
      · exact absurd h3 hmem
  · intro h
    have h2 : l.dropWhile isJsWs = [] := by
      rw [List.dropWhile_eq_nil_iff]
      intro c hc
      exact h c hc
    rw [h2]
    rfl

theorem hasContent_false_iff (l : Chars) :
    hasContent l = false ↔ ∀ c ∈ l, isJsWs c = true := by
  unfold hasContent
  simp [List.any_eq_true]

theorem jsTrimL_isEmpty_eq (l : Chars) :
    (jsTrimL l).isEmpty = !hasContent l := by
  cases hc : hasContent l
  · simp only [Bool.not_false]
    exact (jsTrimL_isEmpty_iff l).mpr ((hasContent_false_iff l).mp hc)
  · simp only [Bool.not_true]
    by_contra h
    have h2 : (jsTrimL l).isEmpty = true := by
      cases hemp : (jsTrimL l).isEmpty
      · exact absurd hemp h
      · rfl
    have := (jsTrimL_isEmpty_iff l).mp h2
    have := (hasContent_false_iff l).mpr this
    rw [this] at hc
    cases hc

theorem hasContent_reverse (l : Chars) : hasContent l.reverse = hasContent l := by
  unfold hasContent
  simp [List.any_eq_true]

theorem hasContent_cons (c : Char) (l : Chars) :
    hasContent (c :: l) = (!isJsWs c || hasContent l) := by
  unfold hasContent
  simp [List.any_cons]

theorem neCount_cons (p : Chars) (M : List Chars) :
    neCount (p :: M) = (if hasContent p then 1 else 0) + neCount M := by
  unfold neCount
  rw [List.countP_cons]
  rw [jsTrimL_isEmpty_eq]
  cases hasContent p <;> simp [Nat.add_comm]

theorem splitNlAux_neCount (s : Chars) :
    (∀ acc : Chars, neCount (splitNlAux false acc s) =
      (if hasContent acc then 1 else 0) + contentSegCount (hasContent acc) s) ∧
    neCount (splitNlAux true [] s) = contentSegCount false s := by
  induction s with
  | nil =>
    constructor
    · intro acc
      simp only [splitNlAux, contentSegCount]
      rw [neCount_cons, hasContent_reverse]
      rfl
    · simp only [splitNlAux, contentSegCount]
      rfl
  | cons c rest ih =>
    constructor
    · intro acc
      simp only [splitNlAux]
      by_cases hnl : c = '\n'
      · rw [if_pos hnl]
        simp only [Bool.false_eq_true, if_false]
        rw [neCount_cons, hasContent_reverse, ih.2]
        simp only [contentSegCount, hnl, if_true, reduceIte]
      · rw [if_neg hnl]
        rw [ih.1 (c :: acc)]
        rw [hasContent_cons]
        simp only [contentSegCount, hnl, if_false, reduceIte]
        by_cases hws : isJsWs c
        · simp only [hws, Bool.not_true, Bool.false_or, if_true, reduceIte]
        · have hws2 : isJsWs c = false := by
            cases h2 : isJsWs c
            · rfl
            · exact absurd h2 hws
          simp only [hws2, Bool.not_false, Bool.true_or, if_true, reduceIte]
          cases hacc : hasContent acc <;> simp
    · simp only [splitNlAux]
      by_cases hnl : c = '\n'
      · rw [if_pos hnl]
        simp only [if_true, reduceIte]
        rw [ih.2]
        simp only [contentSegCount, hnl, if_true, reduceIte]
      · rw [if_neg hnl]
        rw [ih.1 [c]]
        have : hasContent [c] = !isJsWs c := by
          unfold hasContent
          simp
        rw [this]
        simp only [contentSegCount, hnl, reduceIte]
        by_cases hws : isJsWs c
        · simp [hws]
        · have hws2 : isJsWs c = false := by
            cases h2 : isJsWs c
            · rfl
            · exact absurd h2 hws
          simp [hws2]

theorem splitNlRuns_neCount (u : Chars) :
    neCount (splitNlRuns u) = contentSegCount false u := by
  have := (splitNlAux_neCount u).1 []
  simpa [splitNlRuns, hasContent] using this

end XSum

namespace XSum

theorem contentSegCount_allWs {w : Chars} (hw : ∀ c ∈ w, isJsWs c = true) :
    ∀ b, contentSegCount b w = 0 := by
  induction w with
  | nil => intro b; rfl
  | cons c rest ih =>
    intro b
    have hc := hw c (List.mem_cons_self _ _)
    have hrest : ∀ c ∈ rest, isJsWs c = true :=
      fun x hx => hw x (List.mem_cons_of_mem _ hx)
    simp only [contentSegCount]
    by_cases hnl : c = '\n'
    · rw [if_pos hnl]; exact ih hrest false
    · rw [if_neg hnl, if_pos hc]; exact ih hrest b

theorem contentSegCount_dropWhileWs (u : Chars) :
    contentSegCount false (u.dropWhile isJsWs) = contentSegCount false u := by
  induction u with
  | nil => rfl
  | cons c rest ih =>
    by_cases hws : isJsWs c
    · rw [List.dropWhile_cons_of_pos hws, ih]
      simp only [contentSegCount]
      by_cases hnl : c = '\n'
      · rw [if_pos hnl]
      · rw [if_neg hnl, if_pos hws]
    · rw [List.dropWhile_cons_of_neg hws]

theorem contentSegCount_append_allWs {w : Chars}
    (hw : ∀ c ∈ w, isJsWs c = true) :
    ∀ (u : Chars) (b : Bool), contentSegCount b (u ++ w) = contentSegCount b u := by
  intro u
  induction u with
  | nil => intro b; rw [List.nil_append]; exact contentSegCount_allWs hw b
  | cons c rest ih =>
    intro b
    rw [List.cons_append]
    simp only [contentSegCount]
    by_cases hnl : c = '\n'
    · rw [if_pos hnl, if_pos hnl, ih]
    · rw [if_neg hnl, if_neg hnl]
      by_cases hws : isJsWs c
      · rw [if_pos hws, if_pos hws, ih]
      · rw [if_neg hws, if_neg hws, ih]

theorem contentSegCount_jsTrimL (u : Chars) :
    contentSegCount false (jsTrimL u) = contentSegCount false u := by
  unfold jsTrimL
  have h1 : ((u.dropWhile isJsWs).reverse.dropWhile isJsWs).reverse ++
      ((u.dropWhile isJsWs).reverse.takeWhile isJsWs).reverse =
        u.dropWhile isJsWs := by
    have hsplit := List.takeWhile_append_dropWhile (p := isJsWs)
      (l := (u.dropWhile isJsWs).reverse)
    have h2 := congrArg List.reverse hsplit
    rw [List.reverse_append, List.reverse_reverse] at h2
    exact h2
  have hw : ∀ c ∈ ((u.dropWhile isJsWs).reverse.takeWhile isJsWs).reverse,
      isJsWs c = true := by
    intro c hc
    exact List.mem_takeWhile_imp (List.mem_reverse.mp hc)
  have h3 := contentSegCount_append_allWs hw
    (((u.dropWhile isJsWs).reverse.dropWhile isJsWs).reverse) false
  rw [h1] at h3
  exact h3.symm.trans (contentSegCount_dropWhileWs u)

theorem contentSegCount_append (x : Chars) : ∀ (y : Chars) (b : Bool),
    contentSegCount b (x ++ y) =
      contentSegCount b x + contentSegCount (contentSegState b x) y := by
  induction x with
  | nil => intro y b; simp [contentSegCount, contentSegState]
  | cons c rest ih =>
    intro y b
    rw [List.cons_append]
    simp only [contentSegCount, contentSegState]
    by_cases hnl : c = '\n'
    · rw [if_pos hnl, if_pos hnl, if_pos hnl, ih]
    · rw [if_neg hnl, if_neg hnl, if_neg hnl]
      by_cases hws : isJsWs c
      · rw [if_pos hws, if_pos hws, if_pos hws, ih]
      · rw [if_neg hws, if_neg hws, if_neg hws, ih]
        by_cases hb : b <;> simp [Nat.add_assoc]

theorem contentSegCount_noNl {l : Chars} (h : '\n' ∉ l) : ∀ b : Bool,
    contentSegCount b l = if b then 0 else (if hasContent l then 1 else 0) := by
  induction l with
  | nil => intro b; cases b <;> simp [contentSegCount, hasContent]
  | cons c rest ih =>
    intro b
    have hc : c ≠ '\n' := fun he => h (he ▸ List.mem_cons_self _ _)
    have hrest : '\n' ∉ rest := fun he => h (List.mem_cons_of_mem _ he)
    simp only [contentSegCount, hasContent_cons]
    rw [if_neg hc]
    by_cases hws : isJsWs c
    · rw [if_pos hws, ih hrest b]
      simp [hws]
    · have hws2 : isJsWs c = false := by
        cases h2 : isJsWs c
        · rfl
        · exact absurd h2 hws
      rw [if_neg hws, ih hrest true]
      simp only [hws2, Bool.not_false, Bool.true_or, if_true, reduceIte]
      cases b <;> simp

theorem joinNl_cons_cons (l l2 : Chars) (L : List Chars) :
    joinNl (l :: l2 :: L) = l ++ '\n' :: joinNl (l2 :: L) := by
  unfold joinNl
  rw [List.intersperse_cons_cons]
  simp

theorem contentSegCount_joinNl {L : List Chars}
    (hL : ∀ l ∈ L, '\n' ∉ l) :
    contentSegCount false (joinNl L) ≤ neCount L := by
  induction L with
  | nil => simp [joinNl, contentSegCount, neCount]
  | cons l L' ih =>
    cases L' with
    | nil =>
      have hl : '\n' ∉ l := hL l (List.mem_cons_self _ _)
      have : joinNl [l] = l := by simp [joinNl]
      rw [this, contentSegCount_noNl hl false, neCount_cons]
      simp [neCount]
    | cons l2 L'' =>
      have hl : '\n' ∉ l := hL l (List.mem_cons_self _ _)
      have hrest : ∀ x ∈ l2 :: L'', '\n' ∉ x :=
        fun x hx => hL x (List.mem_cons_of_mem _ hx)
      rw [joinNl_cons_cons, contentSegCount_append, neCount_cons]
      have h1 : contentSegCount (contentSegState false l) ('\n' :: joinNl (l2 :: L'')) =
          contentSegCount false (joinNl (l2 :: L'')) := by
        simp [contentSegCount]
      rw [h1, contentSegCount_noNl hl false]
      have h2 := ih hrest
      split_ifs <;> omega

end XSum

namespace XSum

theorem splitNlAux_noNl (s : Chars) : ∀ (sk : Bool) (acc : Chars),
    '\n' ∉ acc → ∀ p ∈ splitNlAux sk acc s, '\n' ∉ p := by
  induction s with
  | nil =>
    intro sk acc hacc p hp
    simp only [splitNlAux, List.mem_singleton] at hp
    rw [hp]
    simpa using hacc
  | cons c rest ih =>
    intro sk acc hacc p hp
    simp only [splitNlAux] at hp
    by_cases hnl : c = '\n'
    · rw [if_pos hnl] at hp
      cases sk with
      | true => exact ih true [] (by simp) p (by simpa using hp)
      | false =>
        simp only [Bool.false_eq_true, if_false, List.mem_cons] at hp
        rcases hp with h | h
        · rw [h]; simpa using hacc
        · exact ih true [] (by simp) p h
    · rw [if_neg hnl] at hp
      refine ih false (c :: acc) ?_ p hp
      intro hmem
      rcases List.mem_cons.mp hmem with h | h
      · exact hnl h.symm
      · exact hacc h

theorem splitNlRuns_noNl (s : Chars) : ∀ p ∈ splitNlRuns s, '\n' ∉ p :=
  splitNlAux_noNl s false [] (by simp)

theorem mem_jsTrimL_sub {c : Char} {l : Chars} (h : c ∈ jsTrimL l) : c ∈ l := by
  unfold jsTrimL at h
  rw [List.mem_reverse] at h
  have h2 := (List.dropWhile_sublist (l := (l.dropWhile isJsWs).reverse) isJsWs).subset h
  rw [List.mem_reverse] at h2
  exact (List.dropWhile_sublist isJsWs).subset h2

theorem length_insertByIdx (x : ScoredBullet) (l : List ScoredBullet) :
    (insertByIdx x l).length = l.length + 1 := by
  induction l with
  | nil => rfl
  | cons y rest ih =>
    simp only [insertByIdx]
    split
    · simp
    · simp [ih]

theorem length_sortByIdx (l : List ScoredBullet) :
    (sortByIdx l).length = l.length := by
  induction l with
  | nil => rfl
  | cons x rest ih =>
    simp only [sortByIdx]
    rw [length_insertByIdx, ih, List.length_cons]

theorem filterAndRankBullets_length {bullets fb : List String}
    (h : filterAndRankBullets bullets = some fb) :
    fb.length ≤ bullets.length := by
  have hscorelen : (bullets.enum.map
      (fun p => ScoredBullet.mk p.2 (scoreBullet p.2) p.1)).length =
        bullets.length := by
    rw [List.length_map, List.enum_length]
  simp only [filterAndRankBullets] at h
  split at h
  · rename_i hcond
    simp only [Option.some.injEq] at h
    rw [← h, List.length_map, length_sortByIdx]
    calc ((bullets.enum.map
          (fun p => ScoredBullet.mk p.2 (scoreBullet p.2) p.1)).filter
            (fun item => decide (0 ≤ item.score))).length
        ≤ (bullets.enum.map
          (fun p => ScoredBullet.mk p.2 (scoreBullet p.2) p.1)).length :=
          List.length_filter_le _ _
      _ = bullets.length := hscorelen
  · split at h
    · rename_i hne
      cases hs : bullets.enum.map
          (fun p => ScoredBullet.mk p.2 (scoreBullet p.2) p.1) with
      | nil => rw [hs] at hne; simp at hne
      | cons s0 srest =>
        rw [hs] at h
        simp only [jsReduce] at h
        have hlen : bullets.length = srest.length + 1 := by
          rw [← hscorelen, hs, List.length_cons]
        simp only [Option.map_some', Option.some.injEq] at h
        rw [← h]
        simp only [List.length_cons, List.length_nil]
        omega
    · simp only [Option.some.injEq] at h
      rw [← h]
      simp

end XSum

namespace XSum

theorem bulletSourcesOf_length (bodyText : Chars) :
    (bulletSourcesOf bodyText).length = contentSegCount false bodyText := by
  unfold bulletSourcesOf
  rw [← List.countP_eq_length_filter, List.countP_map]
  have h := splitNlRuns_neCount bodyText
  unfold neCount at h
  simpa [Function.comp] using h

theorem rawBulletsOf_length_le (conversationEntries : List ConversationEntry)
    (speakerSet : List Chars) (bodyText : Chars) :
    (rawBulletsOf conversationEntries speakerSet bodyText).length ≤
      (bulletSourcesOf bodyText).length := by
  unfold rawBulletsOf
  calc (((bulletSourcesOf bodyText).map (fun l =>
        transformLineToBullet (String.mk l) conversationEntries speakerSet)).filter
          (fun b => b != "")).length
      ≤ ((bulletSourcesOf bodyText).map (fun l =>
        transformLineToBullet (String.mk l) conversationEntries speakerSet)).length :=
        List.length_filter_le _ _
    _ = (bulletSourcesOf bodyText).length := List.length_map _ _

theorem introBody_body_bound (first : Chars) (restLines : List Chars)
    (hfirst : '\n' ∉ first) (hrest : ∀ l ∈ restLines, '\n' ∉ l) :
    contentSegCount false (introBody first restLines).2 ≤
      neCount restLines + 1 := by
  have hbody0 : contentSegCount false (jsTrimL (joinNl restLines)) ≤
      neCount restLines := by
    rw [contentSegCount_jsTrimL]
    exact contentSegCount_joinNl hrest
  have hsuffix_noNl : ∀ idx : Nat, '\n' ∉ jsTrimL ((jsTrimL first).drop (idx + 1)) := by
    intro idx hmem
    have h2 := mem_jsTrimL_sub hmem
    have h3 := List.mem_of_mem_drop h2
    exact hfirst (mem_jsTrimL_sub h3)
  unfold introBody
  cases hidx : firstIdxOf ':' (jsTrimL first) with
  | none =>
    simp only [hidx]
    omega
  | some idx =>
    simp only [hidx]
    by_cases hse : (jsTrimL ((jsTrimL first).drop (idx + 1))).isEmpty
    · rw [if_pos hse]
      omega
    · rw [if_neg hse]
      by_cases hb0 : (jsTrimL (joinNl restLines)).isEmpty
      · rw [if_pos hb0]
        rw [contentSegCount_noNl (hsuffix_noNl idx) false]
        split_ifs <;> omega
      · rw [if_neg hb0]
        rw [contentSegCount_append]
        have h1 : contentSegCount
            (contentSegState false (jsTrimL ((jsTrimL first).drop (idx + 1))))
            ('\n' :: jsTrimL (joinNl restLines)) =
            contentSegCount false (jsTrimL (joinNl restLines)) := by
          simp [contentSegCount]
        rw [h1, contentSegCount_noNl (hsuffix_noNl idx) false]
        split_ifs <;> omega

/-- C6 (counterexample): for the single-line input
`"Hello: the deploy fix is done now"` the input body (everything after the
first line) has zero non-empty lines, yet the output carries one bullet line —
the intro-line colon split moves the suffix into the body and it survives as a
bullet, so the claimed bound `bullets ≤ body lines` fails. -/
theorem C6_bullet_count_counterexample :
    finalizeSummary "Hello: the deploy fix is done now" none none 9 [] =
      some "Hello:\n• The deploy fix is done now." ∧
    bulletLineCount "Hello:\n• The deploy fix is done now." = 1 ∧
    nonEmptyBodyLineCount "Hello: the deploy fix is done now" = 0 := by
  refine ⟨rfl, by decide, by decide⟩

/-- C6 (amended): the number of bullets retained by `filterAndRankBullets`
(before the `•`-expansion step) is at most the number of non-empty input body
lines plus one: the one extra line arises when the intro line's colon split
moves a non-empty suffix into the body.  (The subsequent `•`-expansion step
can split a retained bullet containing `" • "` into several output lines, so
the final line count can exceed this bound.) -/
theorem C6_bullet_count_amended (summary : String)
    (conversationEntries : List ConversationEntry) (speakerSet : List Chars)
    (first : Chars) (restLines : List Chars) (fb : List String)
    (hsplit : splitNlRuns (jsTrimL summary.data) = first :: restLines)
    (hfb : filterAndRankBullets (rawBulletsOf conversationEntries speakerSet
      (introBody first restLines).2) = some fb) :
    fb.length ≤ nonEmptyBodyLineCount summary + 1 := by
  have hfirst : '\n' ∉ first :=
    splitNlRuns_noNl _ first (hsplit ▸ List.mem_cons_self _ _)
  have hrest : ∀ l ∈ restLines, '\n' ∉ l :=
    fun l hl => splitNlRuns_noNl _ l (hsplit ▸ List.mem_cons_of_mem _ hl)
  have h1 := filterAndRankBullets_length hfb
  have h2 := rawBulletsOf_length_le conversationEntries speakerSet
    (introBody first restLines).2
  have h3 := bulletSourcesOf_length (introBody first restLines).2
  have h4 := introBody_body_bound first restLines hfirst hrest
  have h5 : nonEmptyBodyLineCount summary = neCount restLines := by
    unfold nonEmptyBodyLineCount neCount
    rw [hsplit]
    simp only [List.drop_succ_cons, List.drop_zero]
    rw [List.countP_map]
    rfl
  omega

/-- C6 (witness): instantiating the amended bound on the counterexample input
(split `["Hello: the deploy fix is done now"]`, one retained bullet,
zero body lines). -/
theorem C6_bullet_count_amended_witness :
    ([("• The deploy fix is done now." : String)] : List String).length ≤
      nonEmptyBodyLineCount "Hello: the deploy fix is done now" + 1 :=
  C6_bullet_count_amended "Hello: the deploy fix is done now" [] []
    (("Hello: the deploy fix is done now").data) [] _ rfl rfl

end XSum

namespace XSum

theorem isJsWs_not_word {c : Char} (h : isJsWs c = true) : wordChar c = false := by
  cases hw : wordChar c
  · rfl
  · exfalso
    unfold isJsWs at h
    unfold wordChar at hw
    simp only [Bool.or_eq_true, Bool.and_eq_true, decide_eq_true_eq] at h hw
    omega

theorem charCIEq_lower_ws {a b : Char} (ha : isAsciiLower a = true)
    (hb : isJsWs b = true) : charCIEq a b = false := by
  unfold isAsciiLower at ha
  unfold isJsWs at hb
  unfold charCIEq ciFold
  simp only [Bool.and_eq_true, decide_eq_true_eq] at ha
  simp only [Bool.or_eq_true, Bool.and_eq_true, decide_eq_true_eq] at hb
  rw [if_neg (by omega)]
  split_ifs with h
  · simp only [decide_eq_false_iff_not]
    omega
  · simp only [decide_eq_false_iff_not]
    omega

theorem jsLength_foldl_shift (s : Chars) (n : Nat) :
    s.foldl (fun n c => n + (if 0x10000 ≤ c.val then 2 else 1)) n
      = n + jsLength s := by
  induction s generalizing n with
  | nil => simp [jsLength]
  | cons c rest ih =>
    simp only [jsLength, List.foldl_cons]
    rw [ih, ih]
    omega

theorem jsLength_append (x y : Chars) :
    jsLength (x ++ y) = jsLength x + jsLength y := by
  have h := jsLength_foldl_shift y (jsLength x)
  simpa [jsLength, List.foldl_append] using h

theorem boundaryHead_append (x u : Chars) :
    boundaryHead (x ++ u) = match x with
      | [] => boundaryHead u
      | c :: _ => boundaryHead [c] := by
  cases x <;> simp [boundaryHead]

theorem prefixCI_append {p s : Chars} (h : prefixCI p s = true) (u : Chars) :
    prefixCI p (s ++ u) = true := by
  induction p generalizing s with
  | nil => rfl
  | cons a as ih =>
    cases s with
    | nil => cases h
    | cons c cs =>
      simp only [prefixCI, Bool.and_eq_true] at h ⊢
      exact ⟨h.1, ih h.2⟩

theorem matchesHereB_append {p s : Chars} (h : matchesHereB p s = true)
    {u : Chars} (hu : boundaryHead u = true) :
    matchesHereB p (s ++ u) = true := by
  induction p generalizing s with
  | nil =>
    cases s with
    | nil =>
      rw [List.nil_append]
      cases u with
      | nil => rfl
      | cons c _ => simpa [matchesHereB, boundaryHead] using hu
    | cons c cs => simpa [matchesHereB] using h
  | cons a as ih =>
    cases s with
    | nil => cases h
    | cons c cs =>
      simp only [matchesHereB, Bool.and_eq_true] at h
      simp only [List.cons_append, matchesHereB, Bool.and_eq_true]
      exact ⟨h.1, ih h.2⟩

theorem scanBothB_append {alts : List Chars} {flag : Bool} {s : Chars}
    (h : scanBothB alts flag s = true) {u : Chars}
    (hu : boundaryHead u = true) : scanBothB alts flag (s ++ u) = true := by
  induction s generalizing flag with
  | nil => cases h
  | cons c cs ih =>
    simp only [scanBothB, Bool.or_eq_true, Bool.and_eq_true] at h
    simp only [List.cons_append, scanBothB, Bool.or_eq_true, Bool.and_eq_true]
    rcases h with ⟨hf, hany⟩ | hrec
    · left
      refine ⟨hf, ?_⟩
      rcases List.any_eq_true.mp hany with ⟨a, ha, hm⟩
      exact List.any_eq_true.mpr ⟨a, ha, matchesHereB_append hm hu⟩
    · right
      exact ih hrec

theorem scanPreB_append {pat : Chars} {flag : Bool} {s : Chars}
    (h : scanPreB pat flag s = true) (u : Chars) :
    scanPreB pat flag (s ++ u) = true := by
  induction s generalizing flag with
  | nil => cases h
  | cons c cs ih =>
    simp only [scanPreB, Bool.or_eq_true, Bool.and_eq_true] at h
    simp only [List.cons_append, scanPreB, Bool.or_eq_true, Bool.and_eq_true]
    rcases h with ⟨hf, hp⟩ | hrec
    · exact Or.inl ⟨hf, prefixCI_append hp u⟩
    · exact Or.inr (ih hrec)

theorem scanPostB_append {pat : Chars} {s : Chars}
    (h : scanPostB pat s = true) {u : Chars} (hu : boundaryHead u = true) :
    scanPostB pat (s ++ u) = true := by
  induction s with
  | nil => cases h
  | cons c cs ih =>
    simp only [scanPostB, Bool.or_eq_true] at h
    simp only [List.cons_append, scanPostB, Bool.or_eq_true]
    rcases h with hm | hrec
    · exact Or.inl (matchesHereB_append hm hu)
    · exact Or.inr (ih hrec)

theorem containsCI_append {pat s : Chars} (h : containsCI pat s = true)
    (u : Chars) : containsCI pat (s ++ u) = true := by
  induction s with
  | nil =>
    cases pat with
    | nil =>
      cases u with
      | nil => rfl
      | cons c cs => simp [containsCI, prefixCI]
    | cons a as => cases h
  | cons c cs ih =>
    simp only [containsCI, Bool.or_eq_true] at h
    simp only [List.cons_append, containsCI, Bool.or_eq_true]
    rcases h with hp | hrec
    · exact Or.inl (prefixCI_append hp u)
    · exact Or.inr (ih hrec)

end XSum

namespace XSum

theorem boundaryHead_append_of {s u : Chars} (hs : boundaryHead s = true)
    (hu : boundaryHead u = true) : boundaryHead (s ++ u) = true := by
  cases s with
  | nil => simpa using hu
  | cons c cs => simpa [boundaryHead] using hs

theorem numTail_append {s u : Chars} (h : numTail s = true)
    (hu : boundaryHead u = true) : numTail (s ++ u) = true := by
  induction s with
  | nil =>
    rw [List.nil_append]
    cases u with
    | nil => rfl
    | cons c cs =>
      simp only [numTail, Bool.or_eq_true]
      left; left
      simpa [boundaryHead] using hu
  | cons c cs ih =>
    simp only [numTail, Bool.or_eq_true, Bool.and_eq_true] at h
    simp only [List.cons_append, numTail, Bool.or_eq_true, Bool.and_eq_true]
    rcases h with (h | ⟨h1, h2⟩) | ⟨h1, h2⟩
    · exact Or.inl (Or.inl h)
    · exact Or.inl (Or.inr ⟨h1, boundaryHead_append_of h2 hu⟩)
    · exact Or.inr ⟨h1, ih h2⟩

theorem numHere_append {s u : Chars} (h : numHere s = true)
    (hu : boundaryHead u = true) : numHere (s ++ u) = true := by
  cases s with
  | nil => cases h
  | cons c cs =>
    simp only [numHere, Bool.and_eq_true] at h
    simp only [List.cons_append, numHere, Bool.and_eq_true]
    exact ⟨h.1, numTail_append h.2 hu⟩

theorem scanBareNumber_append {flag : Bool} {s u : Chars}
    (h : scanBareNumber flag s = true) (hu : boundaryHead u = true) :
    scanBareNumber flag (s ++ u) = true := by
  induction s generalizing flag with
  | nil => cases h
  | cons c cs ih =>
    simp only [scanBareNumber, Bool.or_eq_true, Bool.and_eq_true] at h
    simp only [List.cons_append, scanBareNumber, Bool.or_eq_true,
      Bool.and_eq_true]
    rcases h with ⟨h1, h2⟩ | h
    · exact Or.inl ⟨h1, numHere_append h2 hu⟩
    · exact Or.inr (ih h)

theorem time4_append {s u : Chars} (h : time4 s = true)
    (hu : boundaryHead u = true) : time4 (s ++ u) = true := by
  rcases s with _ | ⟨a, _ | ⟨b, _ | ⟨c, _ | ⟨d, rest⟩⟩⟩⟩
  · cases h
  · cases h
  · cases h
  · cases h
  · simp only [time4, Bool.and_eq_true] at h
    simp only [List.cons_append, time4, Bool.and_eq_true]
    exact ⟨⟨⟨⟨h.1.1.1.1, h.1.1.1.2⟩, h.1.1.2⟩, h.1.2⟩,
      boundaryHead_append_of h.2 hu⟩

theorem timeHere_append {s u : Chars} (h : timeHere s = true)
    (hu : boundaryHead u = true) : timeHere (s ++ u) = true := by
  cases s with
  | nil => cases h
  | cons c cs =>
    simp only [timeHere, Bool.or_eq_true, Bool.and_eq_true] at h
    simp only [List.cons_append, timeHere, Bool.or_eq_true, Bool.and_eq_true]
    rcases h with h | ⟨h1, h2⟩
    · exact Or.inl (time4_append h hu)
    · exact Or.inr ⟨h1, time4_append h2 hu⟩

theorem scanTime_append {flag : Bool} {s u : Chars}
    (h : scanTime flag s = true) (hu : boundaryHead u = true) :
    scanTime flag (s ++ u) = true := by
  induction s generalizing flag with
  | nil => cases h
  | cons c cs ih =>
    simp only [scanTime, Bool.or_eq_true, Bool.and_eq_true] at h
    simp only [List.cons_append, scanTime, Bool.or_eq_true, Bool.and_eq_true]
    rcases h with ⟨h1, h2⟩ | h
    · exact Or.inl ⟨h1, timeHere_append h2 hu⟩
    · exact Or.inr (ih h)

theorem hasStatusVocab_append {t u : Chars} (hu : boundaryHead u = true)
    (h : hasStatusVocab t = true) : hasStatusVocab (t ++ u) = true := by
  unfold hasStatusVocab at h ⊢
  simp only [Bool.or_eq_true] at h ⊢
  rcases h with ((((((((h | h) | h) | h) | h) | h) | h) | h) | h) | h
  · exact Or.inl (Or.inl (Or.inl (Or.inl (Or.inl (Or.inl (Or.inl (Or.inl
      (Or.inl (scanPreB_append h u)))))))))
  · exact Or.inl (Or.inl (Or.inl (Or.inl (Or.inl (Or.inl (Or.inl (Or.inl
      (Or.inr (containsCI_append h u)))))))))
  · exact Or.inl (Or.inl (Or.inl (Or.inl (Or.inl (Or.inl (Or.inl
      (Or.inr (containsCI_append h u))))))))
  · exact Or.inl (Or.inl (Or.inl (Or.inl (Or.inl (Or.inl
      (Or.inr (containsCI_append h u)))))))
  · exact Or.inl (Or.inl (Or.inl (Or.inl (Or.inl
      (Or.inr (containsCI_append h u))))))
  · exact Or.inl (Or.inl (Or.inl (Or.inl (Or.inr (containsCI_append h u)))))
  · exact Or.inl (Or.inl (Or.inl (Or.inr (containsCI_append h u))))
  · exact Or.inl (Or.inl (Or.inr (containsCI_append h u)))
  · exact Or.inl (Or.inr (containsCI_append h u))
  · exact Or.inr (scanPostB_append h hu)

theorem hasResolutionVocab_append {t u : Chars} (hu : boundaryHead u = true)
    (h : hasResolutionVocab t = true) : hasResolutionVocab (t ++ u) = true := by
  unfold hasResolutionVocab at h ⊢
  simp only [Bool.or_eq_true] at h ⊢
  rcases h with (((h | h) | h) | h) | h
  · exact Or.inl (Or.inl (Or.inl (Or.inl (scanPreB_append h u))))
  · exact Or.inl (Or.inl (Or.inl (Or.inr (containsCI_append h u))))
  · exact Or.inl (Or.inl (Or.inr (containsCI_append h u)))
  · exact Or.inl (Or.inr (containsCI_append h u))
  · exact Or.inr (scanPostB_append h hu)

theorem hasQuestionVocab_append {t u : Chars} (hu : boundaryHead u = true)
    (h : hasQuestionVocab t = true) : hasQuestionVocab (t ++ u) = true := by
  unfold hasQuestionVocab at h ⊢
  simp only [Bool.or_eq_true] at h ⊢
  rcases h with ((((h | h) | h) | h) | h) | h
  · exact Or.inl (Or.inl (Or.inl (Or.inl (Or.inl (scanPreB_append h u)))))
  · exact Or.inl (Or.inl (Or.inl (Or.inl (Or.inr (containsCI_append h u)))))
  · exact Or.inl (Or.inl (Or.inl (Or.inr (containsCI_append h u))))
  · exact Or.inl (Or.inl (Or.inr (containsCI_append h u)))
  · exact Or.inl (Or.inr (containsCI_append h u))
  · exact Or.inr (scanPostB_append h hu)

end XSum

namespace XSum

theorem laughterAlts_lower : ∀ a ∈ laughterAlts, a.all isAsciiLower = true := by
  decide

theorem dropWhile_head_not {p : Char → Bool} :
    ∀ {l : Chars} {c : Char} {cs : Chars},
      l.dropWhile p = c :: cs → p c = false := by
  intro l
  induction l with
  | nil => intro c cs h; cases h
  | cons x xs ih =>
    intro c cs h
    rw [List.dropWhile_cons] at h
    split_ifs at h with hx
    · exact ih h
    · injection h with h1 h2
      subst h1
      exact Bool.eq_false_iff.mpr hx

theorem matchesHereB_reflect {a : Chars} (hall : ∀ c ∈ a, isAsciiLower c = true)
    {w : Char} {u₂ : Chars} (hw : isJsWs w = true) :
    ∀ {s : Chars}, matchesHereB a (s ++ w :: u₂) = true →
      matchesHereB a s = true := by
  induction a with
  | nil =>
    intro s h
    cases s with
    | nil => rfl
    | cons x xs => simpa [matchesHereB] using h
  | cons la as ih =>
    intro s h
    cases s with
    | nil =>
      exfalso
      rw [List.nil_append] at h
      simp only [matchesHereB, Bool.and_eq_true] at h
      have hcl := charCIEq_lower_ws (hall la (List.mem_cons_self la as)) hw
      have h1 := h.1
      rw [hcl] at h1
      cases h1
    | cons x xs =>
      simp only [List.cons_append, matchesHereB, Bool.and_eq_true] at h
      simp only [matchesHereB, Bool.and_eq_true]
      exact ⟨h.1, ih (fun c hc => hall c (List.mem_cons_of_mem la hc)) h.2⟩

theorem scanBothB_laughter_tail {tws : Chars}
    (htws : ∀ c ∈ tws, isJsWs c = true) :
    ∀ flag, scanBothB laughterAlts flag (tws ++ ' ' :: actionPhrase) = false := by
  induction tws with
  | nil =>
    intro flag
    rw [List.nil_append]
    cases flag <;> decide
  | cons w ws ih =>
    intro flag
    have hw := htws w (List.mem_cons_self w ws)
    have hrest : ∀ fl, scanBothB laughterAlts fl (ws ++ ' ' :: actionPhrase) = false :=
      ih (fun c hc => htws c (List.mem_cons_of_mem w hc))
    simp only [List.cons_append, scanBothB, List.append_eq]
    have hany : laughterAlts.any
        (fun a => matchesHereB a (w :: (ws ++ ' ' :: actionPhrase))) = false := by
      rw [List.any_eq_false]
      intro a ha
      have hlow := laughterAlts_lower a ha
      cases a with
      | nil => exact absurd ha (by decide)
      | cons la as =>
        have hcl := charCIEq_lower_ws
          (List.all_eq_true.mp hlow la (List.mem_cons_self la as)) hw
        simp [matchesHereB, hcl]
    rw [hany, Bool.and_false, Bool.false_or]
    exact hrest _

theorem scanBothB_laughter_reflect {w : Char} {u₂ : Chars}
    (hw : isJsWs w = true)
    (hu0 : ∀ fl, scanBothB laughterAlts fl (w :: u₂) = false) :
    ∀ {s : Chars} {flag : Bool},
      scanBothB laughterAlts flag (s ++ w :: u₂) = true →
      scanBothB laughterAlts flag s = true := by
  intro s
  induction s with
  | nil =>
    intro flag h
    rw [List.nil_append, hu0 flag] at h
    cases h
  | cons c cs ih =>
    intro flag h
    simp only [List.cons_append, scanBothB, Bool.or_eq_true, Bool.and_eq_true] at h
    simp only [scanBothB, Bool.or_eq_true, Bool.and_eq_true]
    rcases h with ⟨hf, hany⟩ | hrec
    · left
      refine ⟨hf, ?_⟩
      rcases List.any_eq_true.mp hany with ⟨a, ha, hm⟩
      refine List.any_eq_true.mpr ⟨a, ha, ?_⟩
      have hall : ∀ x ∈ a, isAsciiLower x = true :=
        List.all_eq_true.mp (laughterAlts_lower a ha)
      exact matchesHereB_reflect hall hw (by simpa using hm)
    · exact Or.inr (ih hrec)

theorem scanBothB_action_suffix :
    ∀ (s : Chars) (flag : Bool),
      scanBothB actionAlts flag (s ++ ' ' :: actionPhrase) = true := by
  intro s
  induction s with
  | nil =>
    intro flag
    rw [List.nil_append]
    cases flag <;> decide
  | cons c cs ih =>
    intro flag
    simp only [List.cons_append, scanBothB, Bool.or_eq_true]
    exact Or.inr (ih _)

theorem letters3Aux_mono : ∀ {s : Chars} {k l : Nat}, k ≤ l →
    letters3Aux k s = true → letters3Aux l s = true := by
  intro s
  induction s with
  | nil =>
    intro k l hk h
    simp only [letters3Aux, decide_eq_true_eq] at h ⊢
    omega
  | cons c rest ih =>
    intro k l hk h
    simp only [letters3Aux] at h ⊢
    split_ifs at h ⊢ with hc hl
    · simp only [Bool.or_eq_true, decide_eq_true_eq] at h ⊢
      rcases h with h | h
      · exact Or.inl (by omega)
      · exact Or.inr h
    · exact ih (by omega) h
    · exact ih hk h

theorem letters3Aux_suffix :
    ∀ (s : Chars) (k : Nat), letters3Aux k (s ++ ' ' :: actionPhrase) = true := by
  intro s
  induction s with
  | nil =>
    intro k
    rw [List.nil_append]
    have h1 : isLineTerm ' ' = false := by decide
    have h2 : isAsciiLetter ' ' = false := by decide
    rw [letters3Aux, h1, h2]
    simp only [if_neg (show ¬ (false = true) by decide)]
    exact letters3Aux_mono (Nat.zero_le k)
      (show letters3Aux 0 actionPhrase = true by decide)
  | cons c cs ih =>
    intro k
    simp only [List.cons_append, letters3Aux, List.append_eq]
    split_ifs with hc hl
    · simp only [Bool.or_eq_true]
      exact Or.inr (ih 0)
    · exact ih _
    · exact ih _

theorem wordCountAux_suffix :
    ∀ (s : Chars) (t : Bool), 4 ≤ wordCountAux t (s ++ ' ' :: actionPhrase) := by
  intro s
  induction s with
  | nil =>
    intro t
    rw [List.nil_append]
    have h : wordCountAux t (' ' :: actionPhrase)
        = wordCountAux false actionPhrase := rfl
    rw [h]
    decide
  | cons c cs ih =>
    intro t
    simp only [List.cons_append, wordCountAux, List.append_eq]
    split_ifs with hc ht
    · exact ih false
    · have := ih true
      omega
    · have := ih true
      omega

theorem isEmojiOnly_suffix (s : Chars) :
    isEmojiOnly (s ++ ' ' :: actionPhrase) = false := by
  unfold isEmojiOnly
  rw [List.all_append]
  have h : (' ' :: actionPhrase).all isEmojiChar = false := by decide
  rw [h, Bool.and_false, Bool.and_false]

theorem hasJsWs_suffix (s : Chars) :
    hasJsWs (s ++ ' ' :: actionPhrase) = true := by
  unfold hasJsWs
  rw [List.any_append]
  have h : (' ' :: actionPhrase).any isJsWs = true := by decide
  rw [h, Bool.or_true]

end XSum

namespace XSum

/-- Appending the (space-separated) action phrase to an action-free scored
text strictly increases `scoreTextVal`, for any all-whitespace run `tws`
standing between the text and the separator space. -/
theorem scoreText_gain (t tws : Chars)
    (htws : ∀ c ∈ tws, isJsWs c = true)
    (hact : hasActionVocab t = false) :
    scoreTextVal t < scoreTextVal (t ++ (tws ++ ' ' :: actionPhrase)) := by
  have hbu : boundaryHead (tws ++ ' ' :: actionPhrase) = true := by
    cases tws with
    | nil => decide
    | cons w ws =>
      have hw := htws w (List.mem_cons_self w ws)
      simp only [List.cons_append, boundaryHead, isJsWs_not_word hw]
      rfl
  have hassoc : t ++ (tws ++ ' ' :: actionPhrase)
      = (t ++ tws) ++ ' ' :: actionPhrase := (List.append_assoc t tws _).symm
  have hlen : jsLength (t ++ (tws ++ ' ' :: actionPhrase))
      = jsLength t + jsLength tws + 20 := by
    rw [jsLength_append, jsLength_append,
      show jsLength (' ' :: actionPhrase) = 20 from by decide]
    omega
  have h20 : ¬ (jsLength (t ++ (tws ++ ' ' :: actionPhrase)) < 20) := by
    rw [hlen]; omega
  have hactT : hasActionVocab (t ++ (tws ++ ' ' :: actionPhrase)) = true := by
    unfold hasActionVocab
    rw [hassoc]
    exact scanBothB_action_suffix (t ++ tws) true
  have hth : hasThreeLetters (t ++ (tws ++ ' ' :: actionPhrase)) = true := by
    unfold hasThreeLetters
    rw [hassoc]
    exact letters3Aux_suffix (t ++ tws) 0
  have hemoji : isEmojiOnly (t ++ (tws ++ ' ' :: actionPhrase)) = false := by
    rw [hassoc]; exact isEmojiOnly_suffix (t ++ tws)
  have hws2 : hasJsWs (t ++ (tws ++ ' ' :: actionPhrase)) = true := by
    rw [hassoc]; exact hasJsWs_suffix (t ++ tws)
  have hwc : ¬ (wordCount (t ++ (tws ++ ' ' :: actionPhrase)) ≤ 3) := by
    unfold wordCount
    rw [hassoc]
    have := wordCountAux_suffix (t ++ tws) false
    omega
  obtain ⟨w, u₂, hweq, hw⟩ : ∃ w u₂,
      tws ++ ' ' :: actionPhrase = w :: u₂ ∧ isJsWs w = true := by
    cases tws with
    | nil => exact ⟨' ', actionPhrase, rfl, by decide⟩
    | cons w ws =>
      exact ⟨w, ws ++ ' ' :: actionPhrase, rfl, htws w (List.mem_cons_self w ws)⟩
  have hlreflect : hasLaughter (t ++ (tws ++ ' ' :: actionPhrase)) = true →
      hasLaughter t = true := by
    intro hl
    unfold hasLaughter at hl ⊢
    rw [hweq] at hl
    exact scanBothB_laughter_reflect hw
      (fun fl => by rw [← hweq]; exact scanBothB_laughter_tail htws fl) hl
  have hX1 : (if jsLength t < 20 then (-3 : Int) else 0) ≤ 0 := by
    split_ifs <;> omega
  have hX2 : (if 120 < jsLength t then (-1 : Int) else 0) ≤ 0 := by
    split_ifs <;> omega
  have hX2g : (-1 : Int) ≤
      (if 120 < jsLength (t ++ (tws ++ ' ' :: actionPhrase)) then (-1 : Int)
        else 0) := by
    split_ifs <;> omega
  have hA : (if hasActionVocab t then (4 : Int) else 0) = 0 :=
    if_neg (by simp [hact])
  have hS : (if hasStatusVocab t then (3 : Int) else 0)
      ≤ (if hasStatusVocab (t ++ (tws ++ ' ' :: actionPhrase)) then (3 : Int)
          else 0) := by
    cases hs : hasStatusVocab t with
    | false =>
      rw [if_neg (by simp)]
      split_ifs <;> omega
    | true =>
      rw [if_pos rfl, if_pos (hasStatusVocab_append hbu hs)]
  have hR : (if hasResolutionVocab t then (3 : Int) else 0)
      ≤ (if hasResolutionVocab (t ++ (tws ++ ' ' :: actionPhrase))
          then (3 : Int) else 0) := by
    cases hs : hasResolutionVocab t with
    | false =>
      rw [if_neg (by simp)]
      split_ifs <;> omega
    | true =>
      rw [if_pos rfl, if_pos (hasResolutionVocab_append hbu hs)]
  have hQ : (if hasQuestionVocab t then (1 : Int) else 0)
      ≤ (if hasQuestionVocab (t ++ (tws ++ ' ' :: actionPhrase))
          then (1 : Int) else 0) := by
    cases hs : hasQuestionVocab t with
    | false =>
      rw [if_neg (by simp)]
      split_ifs <;> omega
    | true =>
      rw [if_pos rfl, if_pos (hasQuestionVocab_append hbu hs)]
  have hN : (if hasBareNumber t || hasTimePattern t then (1 : Int) else 0)
      ≤ (if hasBareNumber (t ++ (tws ++ ' ' :: actionPhrase))
            || hasTimePattern (t ++ (tws ++ ' ' :: actionPhrase))
          then (1 : Int) else 0) := by
    cases hn : (hasBareNumber t || hasTimePattern t) with
    | false =>
      rw [if_neg (by simp)]
      split_ifs <;> omega
    | true =>
      rw [if_pos rfl]
      simp only [Bool.or_eq_true] at hn
      have h2 : (hasBareNumber (t ++ (tws ++ ' ' :: actionPhrase))
          || hasTimePattern (t ++ (tws ++ ' ' :: actionPhrase))) = true := by
        simp only [Bool.or_eq_true]
        rcases hn with h | h
        · exact Or.inl (scanBareNumber_append h hbu)
        · exact Or.inr (scanTime_append h hbu)
      rw [if_pos h2]
  have hTH : (if hasThreeLetters t then (1 : Int) else 0) ≤ 1 := by
    split_ifs <;> omega
  have hE : (if isEmojiOnly t then (-5 : Int) else 0) ≤ 0 := by
    split_ifs <;> omega
  have hST : (if startsLetterRunB t && !hasJsWs t && jsLength t ≤ 6
      then (-4 : Int) else 0) ≤ 0 := by
    split_ifs <;> omega
  have hL : (if hasLaughter t then (-4 : Int) else 0)
      ≤ (if hasLaughter (t ++ (tws ++ ' ' :: actionPhrase)) then (-4 : Int)
          else 0) := by
    cases hl : hasLaughter t with
    | true =>
      rw [if_pos rfl]
      split_ifs <;> omega
    | false =>
      have hl2 : hasLaughter (t ++ (tws ++ ' ' :: actionPhrase)) = false := by
        cases hx : hasLaughter (t ++ (tws ++ ' ' :: actionPhrase)) with
        | false => rfl
        | true =>
          exfalso
          have hcontr := hlreflect hx
          rw [hl] at hcontr
          cases hcontr
      rw [if_neg (by simp), if_neg (by simp [hl2])]
  have hWC : (if wordCount t ≤ 3 then (-2 : Int) else 0) ≤ 0 := by
    split_ifs <;> omega
  unfold scoreTextVal
  rw [if_neg h20, if_pos hactT, if_pos hth,
    if_neg (show ¬ (isEmojiOnly (t ++ (tws ++ ' ' :: actionPhrase)) = true)
      from by simp [hemoji]),
    if_neg (show ¬ ((startsLetterRunB (t ++ (tws ++ ' ' :: actionPhrase))
        && !hasJsWs (t ++ (tws ++ ' ' :: actionPhrase))
        && jsLength (t ++ (tws ++ ' ' :: actionPhrase)) ≤ 6) = true)
      from by simp [hws2]),
    if_neg hwc, hA]
  linarith [hX1, hX2, hX2g, hS, hR, hQ, hN, hTH, hE, hST, hL, hWC]

end XSum

namespace XSum

theorem stripLeadingBullet_cons_ne {c : Char} (hc : c ≠ '•') (rest : Chars) :
    stripLeadingBullet (c :: rest) = c :: rest := by
  unfold stripLeadingBullet
  split
  · next heq =>
    injection heq with h1 h2
    exact absurd h1 hc
  · rfl

theorem stripLeadingBullet_append (x : Chars) :
    stripLeadingBullet (x ++ ' ' :: actionPhrase)
      = stripLeadingBullet x ++ ' ' :: actionPhrase ∨
    (stripLeadingBullet x = [] ∧
      stripLeadingBullet (x ++ ' ' :: actionPhrase) = actionPhrase) := by
  cases x with
  | nil =>
    left
    rw [List.nil_append]
    rw [stripLeadingBullet_cons_ne (by decide) actionPhrase]
    rfl
  | cons c rest =>
    by_cases hc : c = '•'
    · subst hc
      rw [List.cons_append]
      rw [show stripLeadingBullet ('•' :: (rest ++ ' ' :: actionPhrase))
          = List.dropWhile isJsWs (rest ++ ' ' :: actionPhrase) from rfl,
        show stripLeadingBullet ('•' :: rest)
          = List.dropWhile isJsWs rest from rfl]
      rw [List.dropWhile_append]
      by_cases he : (rest.dropWhile isJsWs).isEmpty = true
      · right
        refine ⟨List.isEmpty_iff.mp he, ?_⟩
        rw [if_pos he]
        decide
      · left
        rw [if_neg he]
    · left
      rw [List.cons_append, stripLeadingBullet_cons_ne hc,
        stripLeadingBullet_cons_ne hc, List.cons_append]

end XSum

namespace XSum

/-- C7 (scoring monotonicity): for every bullet whose scored text (after the
leading-bullet strip and trim) matches none of the action-vocabulary
patterns, appending the action phrase " must ship by Friday" (with its
separating space) yields a strictly greater `scoreBullet` result. -/
theorem C7_scoring_monotonic (b : String)
    (hact : hasActionVocab (jsTrimL (stripLeadingBullet b.data)) = false) :
    scoreBullet b < scoreBullet (b ++ " must ship by Friday") := by
  have hdata : (b ++ " must ship by Friday").data
      = b.data ++ ' ' :: actionPhrase := by
    rw [String.data_append]
    rfl
  simp only [scoreBullet]
  rw [hdata]
  rcases stripLeadingBullet_append b.data with heq | ⟨hnil, heq⟩
  · rw [heq]
    cases ht0 : (stripLeadingBullet b.data).dropWhile isJsWs with
    | nil =>
      have ht : jsTrimL (stripLeadingBullet b.data) = [] := by
        unfold jsTrimL
        rw [ht0]
        rfl
      have htext : jsTrimL (stripLeadingBullet b.data ++ ' ' :: actionPhrase)
          = actionPhrase := by
        unfold jsTrimL
        rw [List.dropWhile_append, ht0]
        decide
      rw [ht, htext]
      decide
    | cons c cs =>
      have hcws : isJsWs c = false := dropWhile_head_not ht0
      have htu : jsTrimL (stripLeadingBullet b.data)
          = ((c :: cs).reverse.dropWhile isJsWs).reverse := by
        unfold jsTrimL
        rw [ht0]
      have htext : jsTrimL (stripLeadingBullet b.data ++ ' ' :: actionPhrase)
          = (c :: cs) ++ ' ' :: actionPhrase := by
        unfold jsTrimL
        rw [List.dropWhile_append, ht0,
          if_neg (show ¬ ((c :: cs).isEmpty = true) from by simp),
          List.reverse_append, List.dropWhile_append,
          if_neg (show ¬ (((' ' :: actionPhrase).reverse.dropWhile
            isJsWs).isEmpty = true) from by decide),
          show (' ' :: actionPhrase).reverse.dropWhile isJsWs
            = (' ' :: actionPhrase).reverse from by decide,
          ← List.reverse_append, List.reverse_reverse]
      rw [htu, htext]
      have htne : (((c :: cs).reverse.dropWhile isJsWs).reverse).isEmpty
          = false := by
        cases hr : (c :: cs).reverse.dropWhile isJsWs with
        | nil =>
          exfalso
          have hall := List.dropWhile_eq_nil_iff.mp hr
          have hcc : isJsWs c = true := hall c (by simp)
          rw [hcws] at hcc
          cases hcc
        | cons d ds => simp
      rw [if_neg (show ¬ ((((c :: cs).reverse.dropWhile
            isJsWs).reverse).isEmpty = true) from by rw [htne]; decide),
        if_neg (show ¬ (((c :: cs) ++ ' ' :: actionPhrase).isEmpty = true)
          from by simp)]
      have hdecomp : c :: cs
          = ((c :: cs).reverse.dropWhile isJsWs).reverse
            ++ ((c :: cs).reverse.takeWhile isJsWs).reverse := by
        have h := List.takeWhile_append_dropWhile (p := isJsWs)
          (l := (c :: cs).reverse)
        have h2 := congrArg List.reverse h
        rw [List.reverse_append, List.reverse_reverse] at h2
        exact h2.symm
      have htws : ∀ x ∈ ((c :: cs).reverse.takeWhile isJsWs).reverse,
          isJsWs x = true := by
        intro x hx
        rw [List.mem_reverse] at hx
        exact List.mem_takeWhile_imp hx
      have hact2 : hasActionVocab
          (((c :: cs).reverse.dropWhile isJsWs).reverse) = false := by
        rw [← htu]
        exact hact
      rw [show (c :: cs) ++ ' ' :: actionPhrase
          = ((c :: cs).reverse.dropWhile isJsWs).reverse
            ++ (((c :: cs).reverse.takeWhile isJsWs).reverse
              ++ ' ' :: actionPhrase) from by
        rw [← List.append_assoc, ← hdecomp]]
      exact scoreText_gain _ _ htws hact2
  · rw [heq, hnil]
    decide

/-- Witness for C7: the neutral bullet "vibes today" (score -4) matches no
action vocabulary, and appending " must ship by Friday" raises its score
to 5. -/
theorem C7_scoring_monotonic_witness :
    hasActionVocab (jsTrimL (stripLeadingBullet ("vibes today").data)) = false
      ∧ scoreBullet ("vibes today")
          < scoreBullet ("vibes today" ++ " must ship by Friday") :=
  ⟨by decide, C7_scoring_monotonic ("vibes today") (by decide)⟩

end XSum

namespace XSum

theorem dropWhile_cons_of_neg {p : Char → Bool} {c : Char} (r : Chars)
    (h : p c = false) : (c :: r).dropWhile p = c :: r := by
  rw [List.dropWhile_cons, if_neg (by simp [h])]

theorem dropWhile_idem (p : Char → Bool) (l : Chars) :
    (l.dropWhile p).dropWhile p = l.dropWhile p := by
  cases hd : l.dropWhile p with
  | nil => rfl
  | cons c cs => exact dropWhile_cons_of_neg cs (dropWhile_head_not hd)

/-- The leading-trimmed list splits as the fully trimmed list followed by its
run of trailing whitespace. -/
theorem jsTrimL_decomp (l : Chars) :
    l.dropWhile isJsWs
      = jsTrimL l ++ ((l.dropWhile isJsWs).reverse.takeWhile isJsWs).reverse := by
  unfold jsTrimL
  have h := List.takeWhile_append_dropWhile (p := isJsWs)
    (l := (l.dropWhile isJsWs).reverse)
  have h2 := congrArg List.reverse h
  rw [List.reverse_append, List.reverse_reverse] at h2
  exact h2.symm

theorem jsTrimL_head_not {l : Chars} {c : Char} {cs : Chars}
    (h : jsTrimL l = c :: cs) : isJsWs c = false := by
  have hd := jsTrimL_decomp l
  rw [h, List.cons_append] at hd
  exact dropWhile_head_not hd

theorem jsTrimL_reverse (l : Chars) :
    (jsTrimL l).reverse = (l.dropWhile isJsWs).reverse.dropWhile isJsWs := by
  unfold jsTrimL
  rw [List.reverse_reverse]

theorem jsTrimL_eq_self_of {l : Chars} (h1 : l.dropWhile isJsWs = l)
    (h2 : l.reverse.dropWhile isJsWs = l.reverse) : jsTrimL l = l := by
  unfold jsTrimL
  rw [h1, h2, List.reverse_reverse]

theorem jsTrimL_idem (l : Chars) : jsTrimL (jsTrimL l) = jsTrimL l := by
  refine jsTrimL_eq_self_of ?_ ?_
  · cases hR : jsTrimL l with
    | nil => rfl
    | cons c cs => exact dropWhile_cons_of_neg cs (jsTrimL_head_not hR)
  · rw [jsTrimL_reverse]
    exact dropWhile_idem isJsWs ((l.dropWhile isJsWs).reverse)

/-- The four possible time-based greetings. -/
theorem timeBasedGreeting_cases (hour : Nat) :
    timeBasedGreeting hour = "Good morning!"
      ∨ timeBasedGreeting hour = "Good afternoon!"
      ∨ timeBasedGreeting hour = "Good evening!"
      ∨ timeBasedGreeting hour = "Hello!" := by
  unfold timeBasedGreeting
  split_ifs <;> simp

end XSum

namespace XSum

theorem greetingStart_hello (z : Chars) :
    greetingStart (("Hello!").data ++ z) = true := by
  unfold greetingStart
  rw [prefixCI_append (show prefixCI (("hello").data) (("Hello!").data)
      = true from by decide) z]
  simp

theorem goodTail_ws_word {w : Chars}
    (h : prefixCI (("morning").data) w = true
      ∨ prefixCI (("afternoon").data) w = true
      ∨ prefixCI (("evening").data) w = true
      ∨ prefixCI (("night").data) w = true)
    {c : Char} (hcw : isJsWs c = true) {d : Char} {r : Chars}
    (hw : w = d :: r) (hd : isJsWs d = false) :
    goodTail (c :: w) = true := by
  rw [show goodTail (c :: w)
      = (isJsWs c &&
          (prefixCI (("morning").data) ((c :: w).dropWhile isJsWs) ||
           prefixCI (("afternoon").data) ((c :: w).dropWhile isJsWs) ||
           prefixCI (("evening").data) ((c :: w).dropWhile isJsWs) ||
           prefixCI (("night").data) ((c :: w).dropWhile isJsWs))) from rfl]
  have hdw : (c :: w).dropWhile isJsWs = w := by
    rw [List.dropWhile_cons, if_pos hcw, hw]
    exact dropWhile_cons_of_neg r hd
  rw [hcw, hdw]
  rcases h with h | h | h | h <;> simp [h]

theorem greetingStart_goodMorning (z : Chars) :
    greetingStart (("Good morning!").data ++ z) = true := by
  unfold greetingStart
  have hdrop : (("Good morning!").data ++ z).drop 4
      = ' ' :: (("morning!").data ++ z) := by
    rw [List.drop_append_of_le_length (by decide),
      show ("Good morning!").data.drop 4 = ' ' :: ("morning!").data
        from by decide]
    rfl
  rw [prefixCI_append (show prefixCI (("good").data) (("Good morning!").data)
      = true from by decide) z,
    hdrop,
    goodTail_ws_word
      (Or.inl (prefixCI_append (show prefixCI (("morning").data)
        (("morning!").data) = true from by decide) z))
      (by decide)
      (show ("morning!").data ++ z = 'm' :: (("orning!").data ++ z) from rfl)
      (by decide)]
  simp

theorem greetingStart_goodAfternoon (z : Chars) :
    greetingStart (("Good afternoon!").data ++ z) = true := by
  unfold greetingStart
  have hdrop : (("Good afternoon!").data ++ z).drop 4
      = ' ' :: (("afternoon!").data ++ z) := by
    rw [List.drop_append_of_le_length (by decide),
      show ("Good afternoon!").data.drop 4 = ' ' :: ("afternoon!").data
        from by decide]
    rfl
  rw [prefixCI_append (show prefixCI (("good").data) (("Good afternoon!").data)
      = true from by decide) z,
    hdrop,
    goodTail_ws_word
      (Or.inr (Or.inl (prefixCI_append (show prefixCI (("afternoon").data)
        (("afternoon!").data) = true from by decide) z)))
      (by decide)
      (show ("afternoon!").data ++ z = 'a' :: (("fternoon!").data ++ z)
        from rfl)
      (by decide)]
  simp

theorem greetingStart_goodEvening (z : Chars) :
    greetingStart (("Good evening!").data ++ z) = true := by
  unfold greetingStart
  have hdrop : (("Good evening!").data ++ z).drop 4
      = ' ' :: (("evening!").data ++ z) := by
    rw [List.drop_append_of_le_length (by decide),
      show ("Good evening!").data.drop 4 = ' ' :: ("evening!").data
        from by decide]
    rfl
  rw [prefixCI_append (show prefixCI (("good").data) (("Good evening!").data)
      = true from by decide) z,
    hdrop,
    goodTail_ws_word
      (Or.inr (Or.inr (Or.inl (prefixCI_append (show prefixCI
        (("evening").data) (("evening!").data) = true from by decide) z))))
      (by decide)
      (show ("evening!").data ++ z = 'e' :: (("vening!").data ++ z) from rfl)
      (by decide)]
  simp

end XSum

namespace XSum

/-- A non-empty, already-trimmed text that starts with a recognized greeting
token passes through `ensureGreeting` unchanged. -/
theorem ensureGreeting_fix {t : Chars} (hne : t.isEmpty = false)
    (htr : jsTrimL t = t) (hg : greetingStart t = true)
    (lb : Option Int) (rl : Option String) (hr : Nat) :
    ensureGreeting (String.mk t) lb rl hr = String.mk t := by
  simp only [ensureGreeting]
  rw [htr, if_neg (show ¬ (t.isEmpty = true) from by simp [hne]), if_pos hg]

/-- A list of the shape `greeting ++ (middle ++ separator :: tail)` whose
greeting head is non-whitespace and whose tail ends in non-whitespace is a
`jsTrimL` fixed point. -/
theorem trim_fix_shape {g m T : Chars} {sep gh : Char} {gt : Chars}
    (hgcons : g = gh :: gt) (hghw : isJsWs gh = false)
    (hTrev : T.reverse.dropWhile isJsWs = T.reverse)
    (hTrevne : T.reverse.isEmpty = false) :
    jsTrimL (g ++ (m ++ sep :: T)) = g ++ (m ++ sep :: T) := by
  apply jsTrimL_eq_self_of
  · rw [hgcons, List.cons_append]
    exact dropWhile_cons_of_neg _ hghw
  · rw [List.reverse_append, List.reverse_append, List.reverse_cons]
    simp only [List.append_assoc]
    rw [List.dropWhile_append, hTrev,
      if_neg (show ¬ (T.reverse.isEmpty = true) from by simp [hTrevne])]

theorem ensureGreeting_fix_shape {g m T : Chars} {sep gh : Char} {gt : Chars}
    (hgcons : g = gh :: gt) (hghw : isJsWs gh = false)
    (hgz : ∀ z, greetingStart (g ++ z) = true)
    (hTrev : T.reverse.dropWhile isJsWs = T.reverse)
    (hTrevne : T.reverse.isEmpty = false)
    (lb : Option Int) (rl : Option String) (hr : Nat) :
    ensureGreeting (String.mk (g ++ (m ++ sep :: T))) lb rl hr
      = String.mk (g ++ (m ++ sep :: T)) :=
  ensureGreeting_fix
    (by rw [hgcons, List.cons_append]; rfl)
    (trim_fix_shape hgcons hghw hTrev hTrevne)
    (hgz (m ++ sep :: T)) lb rl hr

end XSum

namespace XSum

/-- In the non-greeting branch, the `ensureGreeting` output (intro plus
separator plus trimmed text) is a fixed point of a second `ensureGreeting`
application, for any second window descriptor and hour. -/
theorem ensureGreeting_main_branch_idem {s : String} {g : Chars}
    (he : ¬ ((jsTrimL s.data).isEmpty = true))
    (hg : ¬ (greetingStart (jsTrimL s.data) = true))
    {gh : Char} {gt : Chars} (hgcons : g = gh :: gt) (hghw : isJsWs gh = false)
    (hgz : ∀ z, greetingStart (g ++ z) = true)
    (hTrev : (jsTrimL s.data).reverse.dropWhile isJsWs
      = (jsTrimL s.data).reverse)
    (hTrevne : (jsTrimL s.data).reverse.isEmpty = false)
    (lb lb2 : Option Int) (rl rl2 : Option String) (hr hr2 : Nat)
    (htb : (timeBasedGreeting hr).data = g) :
    ensureGreeting (ensureGreeting s lb rl hr) lb2 rl2 hr2
      = ensureGreeting s lb rl hr := by
  by_cases hb : (prefixEq (("•").data) (jsTrimL s.data)
      || prefixEq (("-").data) (jsTrimL s.data)) = true
  · have h1 : ensureGreeting s lb rl hr
        = String.mk (g ++ (((" Here is what happened in ").data
            ++ windowPhraseOf lb rl ++ [(':' : Char)])
              ++ '\n' :: jsTrimL s.data)) := by
      simp only [ensureGreeting]
      rw [if_neg he, if_neg hg, if_pos hb, htb]
      congr 1
      simp [List.append_assoc]
    rw [h1]
    exact ensureGreeting_fix_shape hgcons hghw hgz hTrev hTrevne lb2 rl2 hr2
  · have htr : jsTrimL (g ++ (((" Here is what happened in ").data
        ++ windowPhraseOf lb rl ++ [(':' : Char)]) ++ ' ' :: jsTrimL s.data))
        = g ++ (((" Here is what happened in ").data
            ++ windowPhraseOf lb rl ++ [(':' : Char)]) ++ ' ' :: jsTrimL s.data) :=
      trim_fix_shape hgcons hghw hTrev hTrevne
    have h1 : ensureGreeting s lb rl hr
        = String.mk (g ++ (((" Here is what happened in ").data
            ++ windowPhraseOf lb rl ++ [(':' : Char)])
              ++ ' ' :: jsTrimL s.data)) := by
      simp only [ensureGreeting]
      rw [if_neg he, if_neg hg, if_neg hb, htb]
      rw [show (g ++ (" Here is what happened in ").data
          ++ windowPhraseOf lb rl ++ [(':' : Char)]) ++ ' ' :: jsTrimL s.data
          = g ++ (((" Here is what happened in ").data ++ windowPhraseOf lb rl
            ++ [(':' : Char)]) ++ ' ' :: jsTrimL s.data) from by
        simp [List.append_assoc]]
      rw [htr]
    rw [h1]
    exact ensureGreeting_fix_shape hgcons hghw hgz hTrev hTrevne lb2 rl2 hr2

end XSum

namespace XSum

/-- C8 (amended): the greeting step itself is idempotent.  Applying
`ensureGreeting` to its own output — with any window descriptor and any clock
hour for the second application — returns that output unchanged, because
every `ensureGreeting` output either is empty, already started with a
recognized greeting token, or begins with the freshly prepended time-based
greeting, which the greeting regex recognizes.  (The full `finalizeSummary`
pipeline is not idempotent on its greeting line: see the counterexample,
where normalization splits a greeting matched across a line break.) -/
theorem C8_greeting_idempotence_amended (s : String) (lb lb2 : Option Int)
    (rl rl2 : Option String) (hr hr2 : Nat) :
    ensureGreeting (ensureGreeting s lb rl hr) lb2 rl2 hr2
      = ensureGreeting s lb rl hr := by
  by_cases he : (jsTrimL s.data).isEmpty = true
  · have h0 : jsTrimL s.data = [] := List.isEmpty_iff.mp he
    have h1 : ensureGreeting s lb rl hr = String.mk [] := by
      simp only [ensureGreeting]
      rw [h0, if_pos (show ([] : Chars).isEmpty = true from rfl)]
    rw [h1]
    rfl
  · have hne2 : (jsTrimL s.data).isEmpty = false := by
      cases hx : (jsTrimL s.data).isEmpty
      · rfl
      · exact absurd hx he
    by_cases hg : greetingStart (jsTrimL s.data) = true
    · have h1 : ensureGreeting s lb rl hr = String.mk (jsTrimL s.data) := by
        simp only [ensureGreeting]
        rw [if_neg he, if_pos hg]
      rw [h1, ensureGreeting_fix hne2 (jsTrimL_idem s.data) hg lb2 rl2 hr2]
    · have hTrev : (jsTrimL s.data).reverse.dropWhile isJsWs
          = (jsTrimL s.data).reverse := by
        rw [jsTrimL_reverse]
        exact dropWhile_idem isJsWs _
      have hTrevne : (jsTrimL s.data).reverse.isEmpty = false := by
        cases hT : jsTrimL s.data with
        | nil =>
          rw [hT] at hne2
          cases hne2
        | cons c t => simp
      rcases timeBasedGreeting_cases hr with htb | htb | htb | htb
      · exact ensureGreeting_main_branch_idem he hg
          (show ("Good morning!").data = 'G' :: ("ood morning!").data from rfl)
          (by decide) greetingStart_goodMorning hTrev hTrevne
          lb lb2 rl rl2 hr hr2 (by rw [htb])
      · exact ensureGreeting_main_branch_idem he hg
          (show ("Good afternoon!").data = 'G' :: ("ood afternoon!").data
            from rfl)
          (by decide) greetingStart_goodAfternoon hTrev hTrevne
          lb lb2 rl rl2 hr hr2 (by rw [htb])
      · exact ensureGreeting_main_branch_idem he hg
          (show ("Good evening!").data = 'G' :: ("ood evening!").data from rfl)
          (by decide) greetingStart_goodEvening hTrev hTrevne
          lb lb2 rl rl2 hr hr2 (by rw [htb])
      · exact ensureGreeting_main_branch_idem he hg
          (show ("Hello!").data = 'H' :: ("ello!").data from rfl)
          (by decide) greetingStart_hello hTrev hTrevne
          lb lb2 rl rl2 hr hr2 (by rw [htb])

end XSum

namespace XSum

/-- C8 (counterexample): `finalizeSummary` is not idempotent on the
greeting/intro first line.  For the raw summary "good\nmorning everyone"
(hour 9, no window descriptor, no entries) the greeting regex matches across
the line break, so the first output keeps the bare first line "good"; feeding
that output back in, the regex no longer matches (the next line starts with a
bullet), and a fresh time-based intro line is prepended, changing the first
line. -/
theorem C8_greeting_idempotence_counterexample :
    finalizeSummary ("good\nmorning everyone") none none 9 []
        = some ("good\n• Morning everyone.")
      ∧ finalizeSummary ("good\n• Morning everyone.") none none 9 []
          = some ("Good morning! Here is what happened in this period:\n• Morning everyone.")
      ∧ firstLine ("Good morning! Here is what happened in this period:\n• Morning everyone.")
          ≠ firstLine ("good\n• Morning everyone.") :=
  ⟨by rfl, by rfl, by decide⟩

end XSum
